import Mathlib

/-!
# osal: the thread-synchronisation gate and the path helpers of `src/src/os.cpp`

Shallow embedding of `os::recursive_mutex`, `os::recursive_mutex_lock`,
`os::thread_synchronizer` and `os::temporary_unlock`, and of
`os::file::get_stem` and `os::file::get_filename`.

* A C++ object reference (`recursive_mutex& m_mutex`) is state passing: every
  operation that touches the mutex takes the mutex state and returns the new one.
* Every operation is performed by a calling thread `t : ThreadId`.
* `pthread_mutex_lock` may block; a call that would block returns `none`.
* The native mutex is the POSIX branch (`#else`) of the source: a
  `PTHREAD_MUTEX_RECURSIVE` mutex. Its unlock by a thread that does not own it
  fails with `EPERM` and changes nothing, and its lock by the owner at the maximum
  recursion count fails with `EAGAIN` and changes nothing; the source ignores both
  return values.
-/

namespace os

/-- Identifier of an OS thread. -/
abbrev ThreadId := Nat

/-- The maximum recursion count of the native mutex. glibc keeps the count of a
`PTHREAD_MUTEX_RECURSIVE` mutex in an `unsigned int`, and `pthread_mutex_lock`
returns `EAGAIN` rather than let it wrap: the maximum is `UINT_MAX`. -/
def max_recursion : Nat := 4294967295

/-- State of `os::recursive_mutex` (`pthread_mutex_t m_mutex` of type
`PTHREAD_MUTEX_RECURSIVE`): the owning thread, its recursion count, which the
native `unsigned int` keeps at most `max_recursion`, and two ghost counters of
the calls made to `recursive_mutex::lock` (calls that returned) and
`recursive_mutex::unlock`. -/
structure recursive_mutex where
  owner : Option ThreadId
  count : Nat
  n_lock : Nat
  n_unlock : Nat
  count_le : count ≤ max_recursion := by decide
deriving DecidableEq, Repr

namespace recursive_mutex

/-- `recursive_mutex::recursive_mutex()`: `pthread_mutex_init` with the attribute
`PTHREAD_MUTEX_RECURSIVE`, a free mutex. -/
def init : recursive_mutex :=
  { owner := none, count := 0, n_lock := 0, n_unlock := 0 }

/-- `recursive_mutex::lock()`: `pthread_mutex_lock(&m_mutex)`, whose return value
the source drops. The native call is modelled on POSIX for a recursive mutex: a
free mutex is taken with count 1; the owner re-enters with count + 1, except at
the maximum recursion count, where the call returns `EAGAIN` and the count stays;
any other thread blocks (`none`). -/
def lock (t : ThreadId) (m : recursive_mutex) : Option recursive_mutex :=
  match m.owner with
  | none =>
    some { m with owner := some t, count := 1, n_lock := m.n_lock + 1,
                  count_le := by decide }
  | some o =>
    if o = t then
      if h : m.count + 1 ≤ max_recursion then
        some { m with count := m.count + 1, n_lock := m.n_lock + 1, count_le := h }
      else
        some { m with n_lock := m.n_lock + 1 }
    else none

/-- `recursive_mutex::unlock()`: `pthread_mutex_unlock(&m_mutex)`. The native call
is modelled on POSIX for a recursive mutex: a caller that is not the owner gets
`EPERM` and the mutex is unchanged; the owner lowers the count and frees the mutex
when the count reaches zero. -/
def unlock (t : ThreadId) (m : recursive_mutex) : recursive_mutex :=
  if m.owner = some t then
    if m.count - 1 = 0 then
      { m with owner := none, count := 0, n_unlock := m.n_unlock + 1,
               count_le := Nat.zero_le _ }
    else
      { m with count := m.count - 1, n_unlock := m.n_unlock + 1,
               count_le := Nat.le_trans (Nat.sub_le _ _) m.count_le }
  else
    { m with n_unlock := m.n_unlock + 1 }

/-- Reentrancy depth at which thread `t` holds the mutex (0 when it does not). -/
def depth (m : recursive_mutex) (t : ThreadId) : Nat :=
  if m.owner = some t then m.count else 0

/-- The mutex is free or already owned by `t`: a `lock` by `t` does not block. -/
def available (m : recursive_mutex) (t : ThreadId) : Prop :=
  m.owner = none ∨ m.owner = some t

instance (m : recursive_mutex) (t : ThreadId) : Decidable (m.available t) := by
  unfold available; infer_instance

/-- Representation invariant of the native mutex: no owner exactly when the count is 0. -/
def wf (m : recursive_mutex) : Prop :=
  m.owner = none ↔ m.count = 0

instance (m : recursive_mutex) : Decidable m.wf := by
  unfold wf; infer_instance

end recursive_mutex

/-- State of `os::recursive_mutex_lock`: the flag `m_locked`. The member
`recursive_mutex& m_mutex` is the mutex state passed to each operation. -/
structure recursive_mutex_lock where
  m_locked : Bool
deriving DecidableEq, Repr

namespace recursive_mutex_lock

/-- `recursive_mutex_lock::recursive_mutex_lock(recursive_mutex& mutex)`:
`m_locked(false)`, then `m_mutex.lock(); m_locked = true;`. -/
def ctor (t : ThreadId) (mutex : recursive_mutex) :
    Option (recursive_mutex_lock × recursive_mutex) :=
  let self : recursive_mutex_lock := { m_locked := false }
  match mutex.lock t with
  | none => none
  | some m => some ({ self with m_locked := true }, m)

/-- `recursive_mutex_lock::recursive_mutex_lock(recursive_mutex_lock&& other)`:
`m_locked(other.m_locked)`, then `other.m_locked = false`. Returns the new guard
and the moved-from guard. -/
def move_ctor (other : recursive_mutex_lock) :
    recursive_mutex_lock × recursive_mutex_lock :=
  ({ m_locked := other.m_locked }, { other with m_locked := false })

/-- `recursive_mutex_lock::~recursive_mutex_lock()`: `if (m_locked) m_mutex.unlock();`. -/
def dtor (t : ThreadId) (self : recursive_mutex_lock) (m : recursive_mutex) :
    recursive_mutex :=
  if self.m_locked then m.unlock t else m

/-- `recursive_mutex_lock::unlock()`: `m_mutex.unlock(); m_locked = false;`. -/
def unlock (t : ThreadId) (self : recursive_mutex_lock) (m : recursive_mutex) :
    recursive_mutex_lock × recursive_mutex :=
  let m1 := m.unlock t
  ({ self with m_locked := false }, m1)

/-- `explicit operator bool() const { return m_locked; }`. -/
def toBool (self : recursive_mutex_lock) : Bool :=
  self.m_locked

end recursive_mutex_lock

/-- State of `os::thread_synchronizer`: `os::recursive_mutex m_mtx; bool m_stop{false};`. -/
structure thread_synchronizer where
  m_mtx : recursive_mutex
  m_stop : Bool
deriving DecidableEq, Repr

namespace thread_synchronizer

/-- `thread_synchronizer() = default`: a fresh mutex and `m_stop{false}`. -/
def init : thread_synchronizer :=
  { m_mtx := recursive_mutex.init, m_stop := false }

/-- `thread_synchronizer::lock()`:
`recursive_mutex_lock lock(m_mtx); if (m_stop) lock.unlock(); return lock;`.
The `return` of the local guard move-constructs the result and destroys the
moved-from local. -/
def lock (t : ThreadId) (self : thread_synchronizer) :
    Option (recursive_mutex_lock × thread_synchronizer) :=
  match recursive_mutex_lock.ctor t self.m_mtx with
  | none => none
  | some (lock0, m1) =>
    let r := if self.m_stop then lock0.unlock t m1 else (lock0, m1)
    let mv := recursive_mutex_lock.move_ctor r.1
    let m3 := mv.2.dtor t r.2
    some (mv.1, { self with m_mtx := m3 })

/-- `thread_synchronizer::resume()`: `recursive_mutex_lock lock(m_mtx); m_stop = false;`
and the guard is destroyed at the end of the scope. -/
def resume (t : ThreadId) (self : thread_synchronizer) : Option thread_synchronizer :=
  match recursive_mutex_lock.ctor t self.m_mtx with
  | none => none
  | some (lock0, m1) =>
    let s1 : thread_synchronizer := { m_mtx := m1, m_stop := false }
    some { s1 with m_mtx := lock0.dtor t s1.m_mtx }

/-- `thread_synchronizer::stop()`: `recursive_mutex_lock lock(m_mtx); m_stop = true;`
and the guard is destroyed at the end of the scope. -/
def stop (t : ThreadId) (self : thread_synchronizer) : Option thread_synchronizer :=
  match recursive_mutex_lock.ctor t self.m_mtx with
  | none => none
  | some (lock0, m1) =>
    let s1 : thread_synchronizer := { m_mtx := m1, m_stop := true }
    some { s1 with m_mtx := lock0.dtor t s1.m_mtx }

end thread_synchronizer

namespace temporary_unlock

/-- `temporary_unlock::temporary_unlock(thread_synchronizer& thread_sync)`:
`m_mutex(thread_sync.m_mtx)` and `m_mutex.unlock();`. The object holds nothing but
the reference, so its construction is a function on the gate state. -/
def ctor (t : ThreadId) (thread_sync : thread_synchronizer) : thread_synchronizer :=
  { thread_sync with m_mtx := thread_sync.m_mtx.unlock t }

/-- `temporary_unlock::~temporary_unlock()`: `m_mutex.lock();`. -/
def dtor (t : ThreadId) (thread_sync : thread_synchronizer) : Option thread_synchronizer :=
  match thread_sync.m_mtx.lock t with
  | none => none
  | some m => some { thread_sync with m_mtx := m }

end temporary_unlock

/-- What one thread `t` has alive around one gate: the gate, the guards
(`recursive_mutex_lock` objects) it has not destroyed yet, and the number of
`temporary_unlock` objects it has not destroyed yet. -/
structure World where
  sync : thread_synchronizer
  guards : List recursive_mutex_lock
  temps : Nat
deriving DecidableEq, Repr

/-- The calls one thread can make on a gate and on the objects it got from it. -/
inductive Op where
  | lock
  | move (i : Nat)
  | destroy (i : Nat)
  | stop
  | resume
  | temp_ctor
  | temp_dtor
deriving DecidableEq, Repr

namespace World

/-- A freshly constructed gate, no guard and no `temporary_unlock` alive. -/
def init : World :=
  { sync := thread_synchronizer.init, guards := [], temps := 0 }

/-- Number of live guards whose `m_locked` flag is true. -/
def locked_count (w : World) : Nat :=
  w.guards.countP (fun g => g.m_locked)

/-- One call by thread `t`. `none` when the call blocks, names a guard that is
not alive, or breaks the precondition of `temporary_unlock` (constructed only
while `t` holds the lock; destroyed only if one is alive).
* `lock`: `thread_synchronizer::lock()`, the returned guard becomes alive;
* `move i`: guard `i` is moved into a new guard, both stay alive;
* `destroy i`: the destructor of guard `i` runs;
* `stop`, `resume`: the gate's calls;
* `temp_ctor`, `temp_dtor`: construction and destruction of a `temporary_unlock`. -/
def step (t : ThreadId) : Op → World → Option World
  | Op.lock, w =>
    match w.sync.lock t with
    | none => none
    | some (g, s) => some { w with sync := s, guards := w.guards ++ [g] }
  | Op.move i, w =>
    match w.guards[i]? with
    | none => none
    | some g =>
      let mv := recursive_mutex_lock.move_ctor g
      some { w with guards := w.guards.set i mv.2 ++ [mv.1] }
  | Op.destroy i, w =>
    match w.guards[i]? with
    | none => none
    | some g =>
      some { w with sync := { w.sync with m_mtx := g.dtor t w.sync.m_mtx },
                    guards := w.guards.eraseIdx i }
  | Op.stop, w =>
    match w.sync.stop t with
    | none => none
    | some s => some { w with sync := s }
  | Op.resume, w =>
    match w.sync.resume t with
    | none => none
    | some s => some { w with sync := s }
  | Op.temp_ctor, w =>
    if 1 ≤ w.sync.m_mtx.depth t then
      some { w with sync := temporary_unlock.ctor t w.sync, temps := w.temps + 1 }
    else none
  | Op.temp_dtor, w =>
    if 1 ≤ w.temps then
      match temporary_unlock.dtor t w.sync with
      | none => none
      | some s => some { w with sync := s, temps := w.temps - 1 }
    else none

/-- A sequence of calls by thread `t`, in order. -/
def run (t : ThreadId) : List Op → World → Option World
  | [], w => some w
  | op :: ops, w =>
    match step t op w with
    | none => none
    | some w1 => run t ops w1

/-- What holds of every state thread `t` reaches from the fresh gate with no lock
made at the maximum recursion count: the mutex is well formed, free or owned by
`t`, and there are at most as many locked guards as the depth plus the live
`temporary_unlock` objects. -/
def inv (t : ThreadId) (w : World) : Prop :=
  w.sync.m_mtx.wf ∧ w.sync.m_mtx.available t ∧
    w.locked_count ≤ w.sync.m_mtx.depth t + w.temps

end World

/-! ## Two or more threads around one mutex

The scenario of the mutual-exclusion property: every thread repeats
`{ recursive_mutex_lock guard(mutex); tmp = counter; counter = tmp + 1; }`
on one shared `recursive_mutex` and one shared counter. The threads are interleaved
statement by statement, in any order (sequentially consistent memory). -/

/-- One thread of the scenario. `pc` is its position: 0 outside the critical
section, 1 after the guard is constructed, 2 after `tmp = counter`, 3 after
`counter = tmp + 1` and before the guard is destroyed. `reg` is the local `tmp`,
`guard` its guard object (alive when `pc` is not 0), `todo` the increments it still
has to make and `done` the increments it has made (ghost). -/
structure Worker where
  pc : Nat
  reg : Nat
  guard : recursive_mutex_lock
  todo : Nat
  done : Nat
deriving DecidableEq, Repr

/-- The shared mutex, the shared counter and the threads; thread `i` is entry `i`. -/
structure Shared where
  mtx : recursive_mutex
  counter : Nat
  workers : List Worker
deriving DecidableEq, Repr

namespace Shared

/-- A fresh mutex, the counter at 0, and one thread per entry of `todo`, each
outside the critical section. -/
def start (todo : List Nat) : Shared :=
  { mtx := recursive_mutex.init, counter := 0,
    workers := todo.map fun k =>
      { pc := 0, reg := 0, guard := { m_locked := false }, todo := k, done := 0 } }

/-- One statement of thread `i`. `none` when thread `i` does not exist, has
finished, or is blocked in the constructor of its guard. -/
def step (i : ThreadId) (s : Shared) : Option Shared :=
  match s.workers[i]? with
  | none => none
  | some w =>
    if w.pc = 0 then
      if w.todo = 0 then none
      else
        match recursive_mutex_lock.ctor i s.mtx with
        | none => none
        | some (g, m) =>
          some { s with mtx := m, workers := s.workers.set i { w with pc := 1, guard := g } }
    else if w.pc = 1 then
      some { s with workers := s.workers.set i { w with pc := 2, reg := s.counter } }
    else if w.pc = 2 then
      some { s with counter := w.reg + 1,
                    workers := s.workers.set i
                      { w with pc := 3, todo := w.todo - 1, done := w.done + 1 } }
    else
      some { s with mtx := w.guard.dtor i s.mtx,
                    workers := s.workers.set i { w with pc := 0 } }

/-- An interleaving: the threads named by the schedule make one statement each,
in order. -/
def run : List ThreadId → Shared → Option Shared
  | [], s => some s
  | i :: sched, s =>
    match step i s with
    | none => none
    | some s1 => run sched s1

/-- What holds of every state of the scenario: the counter is the number of
increments made; made plus remaining increments are `total`; a thread outside
the critical section does not own the mutex; a thread inside owns it at count 1
through a locked guard; a thread that has read the counter holds its current
value; and the owner of the mutex is a thread inside the critical section. -/
def inv (total : Nat) (s : Shared) : Prop :=
  s.counter = (s.workers.map Worker.done).sum ∧
  (s.workers.map (fun w => w.done + w.todo)).sum = total ∧
  (∀ i w, s.workers[i]? = some w →
    (w.pc = 0 → s.mtx.owner ≠ some i) ∧
    (w.pc ≠ 0 → s.mtx.owner = some i ∧ s.mtx.count = 1 ∧ w.guard.m_locked = true ∧
      w.pc ≤ 3 ∧ (w.pc ≤ 2 → 1 ≤ w.todo)) ∧
    (w.pc = 2 → w.reg = s.counter)) ∧
  (∀ i, s.mtx.owner = some i → ∃ w, s.workers[i]? = some w ∧ w.pc ≠ 0)

end Shared

namespace World

/-- The call would make a native unlock while `t` does not hold the mutex: the
destructor of a locked guard, or the constructor of a `temporary_unlock`, at
depth 0. (`lock()`, `stop()` and `resume()` unlock right after their own lock,
at depth 1 or more.) -/
def unlocks_at_zero (t : ThreadId) (op : Op) (w : World) : Bool :=
  match op with
  | Op.destroy i =>
    match w.guards[i]? with
    | some g => g.m_locked && decide (w.sync.m_mtx.depth t = 0)
    | none => false
  | Op.temp_ctor => decide (w.sync.m_mtx.depth t = 0)
  | _ => false

/-- One call by thread `t` that makes no unlock at depth 0. -/
def strict_step (t : ThreadId) (op : Op) (w : World) : Option World :=
  if unlocks_at_zero t op w then none else step t op w

/-- A sequence of calls by thread `t` in which no unlock is made at depth 0. -/
def strict_run (t : ThreadId) : List Op → World → Option World
  | [], w => some w
  | op :: ops, w =>
    match strict_step t op w with
    | none => none
    | some w1 => strict_run t ops w1

/-- The call would make a native lock while `t` holds the mutex at the maximum
recursion count, where the native lock fails with `EAGAIN`: `lock()`, `stop()`,
`resume()` or the destructor of a `temporary_unlock` at depth `max_recursion`. -/
def locks_at_max (t : ThreadId) (op : Op) (w : World) : Bool :=
  match op with
  | Op.lock => decide (w.sync.m_mtx.depth t = max_recursion)
  | Op.stop => decide (w.sync.m_mtx.depth t = max_recursion)
  | Op.resume => decide (w.sync.m_mtx.depth t = max_recursion)
  | Op.temp_dtor => decide (w.sync.m_mtx.depth t = max_recursion)
  | _ => false

/-- One call by thread `t` that makes no lock at the maximum recursion count. -/
def bounded_step (t : ThreadId) (op : Op) (w : World) : Option World :=
  if locks_at_max t op w then none else step t op w

/-- A sequence of calls by thread `t` in which no lock is made at the maximum
recursion count. -/
def bounded_run (t : ThreadId) : List Op → World → Option World
  | [], w => some w
  | op :: ops, w =>
    match bounded_step t op w with
    | none => none
    | some w1 => bounded_run t ops w1

/-- One call by thread `t` that makes no unlock at depth 0 and no lock at the
maximum recursion count. -/
def safe_step (t : ThreadId) (op : Op) (w : World) : Option World :=
  if locks_at_max t op w then none else strict_step t op w

/-- A sequence of calls by thread `t` in which no unlock is made at depth 0 and no
lock at the maximum recursion count. -/
def safe_run (t : ThreadId) : List Op → World → Option World
  | [], w => some w
  | op :: ops, w =>
    match safe_step t op w with
    | none => none
    | some w1 => safe_run t ops w1

/-- Thread `t` holds `n` live guards of a Running gate, all locked, and no
`temporary_unlock`, while the depth of the mutex is `n - k`: the state after nested
`lock()` calls on a free gate, `k` of them at the maximum recursion count, and the
destruction of some of the guards. -/
def overfull (t : ThreadId) (k n : Nat) (w : World) : Prop :=
  w.guards.length = n ∧ (∀ g ∈ w.guards, g.m_locked = true) ∧ w.sync.m_stop = false ∧
    w.temps = 0 ∧ w.sync.m_mtx.depth t = n - k ∧ (n - k = 0 → w.sync.m_mtx.owner = none)

/-- The balance of the gate: the locked live guards are the depth plus the live
`temporary_unlock` objects, and the native locks are the native unlocks plus the
depth. -/
def balanced (t : ThreadId) (w : World) : Prop :=
  w.locked_count = w.sync.m_mtx.depth t + w.temps ∧
    w.sync.m_mtx.n_lock = w.sync.m_mtx.n_unlock + w.sync.m_mtx.depth t

end World

/-! ## Path helpers of `os::file`

A path is the list of the `char`s of the `std::string`. The helpers compare a
`char` only with `.`, `/`, backslash and NUL, which are single bytes of UTF-8 and
part of no multi-byte sequence. -/

namespace file

/-- The test `p[i - 1] == '.'` of the first loop of `get_stem`. -/
def is_dot (c : Char) : Bool :=
  c == '.'

/-- The test `p[i - 1] == '/' || p[i - 1] == '\\'` of the separator loops. -/
def is_sep (c : Char) : Bool :=
  c == '/' || c == '\\'

/-- The loop `for (auto i = len; i != 0; i--) { if (test(p[i - 1])) { ...; break; } }`
of `get_stem` and `get_filename`, started at `i`: the value of `i` at the `break`,
`none` when the loop ends at `i = 0`. `p[i - 1]` at the length of the string reads
the terminating NUL of `c_str()`. -/
def scan_back (test : Char → Bool) (p : List Char) : Nat → Option Nat
  | 0 => none
  | i + 1 => if test (p.getD i '\x00') then some (i + 1) else scan_back test p i

/-- The constructor call `std::string(path, pos, n)` with `path` a `const char*`:
the C string at `path` (the chars before the first NUL) is taken as a string, and
the result is its substring of at most `n` chars from `pos`; `none` is the
exception `std::out_of_range`, thrown when `pos` is beyond the length. -/
def string_of_c_str (path : List Char) (pos n : Nat) : Option (List Char) :=
  let str := path.takeWhile (fun c => c != '\x00')
  if pos > str.length then none else some ((str.drop pos).take n)

/-- `std::string get_stem(const char* path, size_t size)`. -/
def get_stem_n (path : List Char) (size : Nat) : Option (List Char) :=
  let p := path
  let start := 0
  let len := size
  let end_ := size
  if end_ = 0 then some []
  else
    let end_ := match scan_back is_dot p len with
      | some i => i - 1
      | none => end_
    let start := match scan_back is_sep p len with
      | some i => i
      | none => start
    let end_ := if start > end_ then len else end_
    string_of_c_str path start (end_ - start)

/-- `std::string get_stem(const std::string& path)`:
`return get_stem(path.c_str(), path.size());`. -/
def get_stem (path : List Char) : Option (List Char) :=
  get_stem_n path path.length

/-- `std::string get_filename(const char* path, size_t size)`. -/
def get_filename_n (path : List Char) (size : Nat) : Option (List Char) :=
  let p := path
  let start := 0
  if size = 0 then some []
  else
    let start := match scan_back is_sep p size with
      | some i => i
      | none => start
    string_of_c_str path start (size - start)

/-- `std::string get_filename(const std::string& path)`:
`return get_filename(path.c_str(), path.size());`. -/
def get_filename (path : List Char) : Option (List Char) :=
  get_filename_n path path.length

end file

namespace file

/-- A directory prefix: empty, or ending in `/` or backslash. -/
def is_dir_prefix (d : List Char) : Prop :=
  d = [] ∨ ∃ d0 c, d = d0 ++ [c] ∧ is_sep c = true

/-- No NUL `char` in the string: it is the C string that `c_str()` points to. -/
def no_nul (p : List Char) : Prop :=
  ∀ c ∈ p, c ≠ '\x00'

instance (p : List Char) : Decidable (no_nul p) := by
  unfold no_nul; infer_instance

end file

/-! ## The native mutex -/

theorem max_recursion_pos : 0 < max_recursion := by decide

theorem recursive_mutex.depth_le_max (m : recursive_mutex) (t : ThreadId) :
    m.depth t ≤ max_recursion := by
  unfold recursive_mutex.depth
  by_cases ho : m.owner = some t
  · simpa [ho] using m.count_le
  · simp [ho]

theorem recursive_mutex.lock_some_of_available {t : ThreadId} {m : recursive_mutex}
    (h : m.available t) : ∃ m1, m.lock t = some m1 := by
  rcases m with ⟨o, c, nl, nu, hc⟩
  rcases h with h | h <;> simp only at h <;> subst h
  · simp [recursive_mutex.lock]
  · by_cases hlt : c + 1 ≤ max_recursion <;> simp [recursive_mutex.lock, hlt]

/-- What every native lock that returns does, at the maximum count or not. -/
theorem recursive_mutex.lock_any {t : ThreadId} {m m1 : recursive_mutex}
    (h : m.lock t = some m1) :
    m1.owner = some t ∧ 1 ≤ m1.count ∧ m1.n_lock = m.n_lock + 1 ∧
      m1.n_unlock = m.n_unlock := by
  rcases m with ⟨o, c, nl, nu, hc⟩
  cases o with
  | none =>
    simp [recursive_mutex.lock] at h
    subst h
    simp
  | some o =>
    by_cases ho : o = t
    · subst ho
      by_cases hlt : c + 1 ≤ max_recursion
      · simp [recursive_mutex.lock, hlt] at h
        subst h
        simp
      · simp [recursive_mutex.lock, hlt] at h
        subst h
        have := max_recursion_pos
        simp
        omega
    · simp [recursive_mutex.lock, ho] at h

/-- A native lock below the maximum recursion count adds one level. -/
theorem recursive_mutex.lock_spec {t : ThreadId} {m m1 : recursive_mutex}
    (h : m.lock t = some m1) (hlt : m.depth t < max_recursion) :
    m1.owner = some t ∧ m1.count = m.depth t + 1 ∧ m1.depth t = m.depth t + 1 ∧
      m1.n_lock = m.n_lock + 1 ∧ m1.n_unlock = m.n_unlock := by
  rcases m with ⟨o, c, nl, nu, hc⟩
  cases o with
  | none =>
    simp [recursive_mutex.lock] at h
    subst h
    simp [recursive_mutex.depth]
  | some o =>
    by_cases ho : o = t
    · subst ho
      have hc1 : c + 1 ≤ max_recursion := by
        simpa [recursive_mutex.depth] using hlt
      simp [recursive_mutex.lock, hc1] at h
      subst h
      simp [recursive_mutex.depth]
    · simp [recursive_mutex.lock, ho] at h

/-- A native lock by the owner at the maximum recursion count: `EAGAIN`, the
owner and the count stay. -/
theorem recursive_mutex.lock_at_max {t : ThreadId} {m m1 : recursive_mutex}
    (h : m.lock t = some m1) (hmax : m.depth t = max_recursion) :
    m1.owner = some t ∧ m1.count = m.count ∧ m1.depth t = m.depth t ∧
      m1.n_lock = m.n_lock + 1 ∧ m1.n_unlock = m.n_unlock := by
  rcases m with ⟨o, c, nl, nu, hc⟩
  have hpos := max_recursion_pos
  cases o with
  | none =>
    simp [recursive_mutex.depth] at hmax
    omega
  | some o =>
    by_cases ho : o = t
    · subst ho
      have hcm : c = max_recursion := by simpa [recursive_mutex.depth] using hmax
      have hc1 : ¬ c + 1 ≤ max_recursion := by omega
      simp [recursive_mutex.lock, hc1] at h
      subst h
      simp [recursive_mutex.depth]
    · simp [recursive_mutex.depth, ho] at hmax
      omega

theorem recursive_mutex.unlock_spec (t : ThreadId) (m : recursive_mutex) :
    (m.unlock t).depth t = m.depth t - 1 ∧
      (m.unlock t).n_unlock = m.n_unlock + 1 ∧ (m.unlock t).n_lock = m.n_lock := by
  rcases m with ⟨o, c, nl, nu, hc⟩
  by_cases ho : o = some t
  · subst ho
    by_cases hc : c - 1 = 0
    · simp [recursive_mutex.unlock, recursive_mutex.depth, hc]
    · simp [recursive_mutex.unlock, recursive_mutex.depth, hc]
  · simp [recursive_mutex.unlock, recursive_mutex.depth, ho]

theorem recursive_mutex.unlock_lock_frame {t : ThreadId} {m m1 : recursive_mutex}
    (hwf : m.wf) (h : m.lock t = some m1) (hlt : m.depth t < max_recursion) :
    (m1.unlock t).owner = m.owner ∧ (m1.unlock t).count = m.count ∧ (m1.unlock t).wf := by
  rcases m with ⟨o, c, nl, nu, hc⟩
  simp only [recursive_mutex.wf] at hwf
  cases o with
  | none =>
    have hc0 : c = 0 := hwf.mp rfl
    subst hc0
    simp [recursive_mutex.lock] at h
    subst h
    simp [recursive_mutex.unlock, recursive_mutex.wf]
  | some o =>
    by_cases ho : o = t
    · subst ho
      have hc0 : c ≠ 0 := fun hc0 => by simp [hc0] at hwf
      have hc1 : c + 1 ≤ max_recursion := by
        simpa [recursive_mutex.depth] using hlt
      simp [recursive_mutex.lock, hc1] at h
      subst h
      simp [recursive_mutex.unlock, recursive_mutex.wf, hc0]
    · simp [recursive_mutex.lock, ho] at h

/-! ## The gate, in terms of the native mutex -/

theorem thread_synchronizer.lock_running_eq {t : ThreadId} {s : thread_synchronizer}
    {m1 : recursive_mutex} (hrun : s.m_stop = false) (h : s.m_mtx.lock t = some m1) :
    s.lock t = some ({ m_locked := true }, { s with m_mtx := m1 }) := by
  simp [thread_synchronizer.lock, recursive_mutex_lock.ctor, h, hrun,
    recursive_mutex_lock.move_ctor, recursive_mutex_lock.dtor]

theorem thread_synchronizer.lock_stopped_eq {t : ThreadId} {s : thread_synchronizer}
    {m1 : recursive_mutex} (hstop : s.m_stop = true) (h : s.m_mtx.lock t = some m1) :
    s.lock t = some ({ m_locked := false }, { s with m_mtx := m1.unlock t }) := by
  simp [thread_synchronizer.lock, recursive_mutex_lock.ctor, h, hstop,
    recursive_mutex_lock.move_ctor, recursive_mutex_lock.dtor, recursive_mutex_lock.unlock]

theorem thread_synchronizer.stop_eq {t : ThreadId} {s : thread_synchronizer}
    {m1 : recursive_mutex} (h : s.m_mtx.lock t = some m1) :
    s.stop t = some { m_mtx := m1.unlock t, m_stop := true } := by
  simp [thread_synchronizer.stop, recursive_mutex_lock.ctor, h, recursive_mutex_lock.dtor]

theorem thread_synchronizer.resume_eq {t : ThreadId} {s : thread_synchronizer}
    {m1 : recursive_mutex} (h : s.m_mtx.lock t = some m1) :
    s.resume t = some { m_mtx := m1.unlock t, m_stop := false } := by
  simp [thread_synchronizer.resume, recursive_mutex_lock.ctor, h, recursive_mutex_lock.dtor]

theorem thread_synchronizer.lock_none {t : ThreadId} {s : thread_synchronizer}
    (h : s.m_mtx.lock t = none) : s.lock t = none ∧ s.stop t = none ∧ s.resume t = none := by
  simp [thread_synchronizer.lock, thread_synchronizer.stop, thread_synchronizer.resume,
    recursive_mutex_lock.ctor, h]

theorem recursive_mutex.lock_unlock_frame {a b : ThreadId} {m m1 : recursive_mutex}
    (h : m.lock a = some m1) (hb : m.available b) (hlt : m.depth a < max_recursion) :
    (m1.unlock a).available a ∧ (m1.unlock a).available b ∧
      (m1.unlock a).depth b = m.depth b := by
  rcases m with ⟨o, c, nl, nu, hc⟩
  cases o with
  | none =>
    simp [recursive_mutex.lock] at h
    subst h
    simp [recursive_mutex.unlock, recursive_mutex.available, recursive_mutex.depth]
  | some o =>
    by_cases ho : o = a
    · subst ho
      have hc1 : c + 1 ≤ max_recursion := by
        simpa [recursive_mutex.depth] using hlt
      simp [recursive_mutex.lock, hc1] at h
      subst h
      have hob : o = b := by
        rcases hb with hb | hb <;> simp at hb
        exact hb
      subst hob
      by_cases hc0 : c = 0
      · simp [recursive_mutex.unlock, recursive_mutex.available, recursive_mutex.depth, hc0]
      · simp [recursive_mutex.unlock, recursive_mutex.available, recursive_mutex.depth, hc0]
    · simp [recursive_mutex.lock, ho] at h

/-- A lock by `a` followed at once by an unlock by `a`, on a mutex `a` can take
below the maximum recursion count: what `stop()`, `resume()` and a `lock()` on a
Stopped gate do to the mutex. -/
theorem recursive_mutex.lock_unlock_spec {a b : ThreadId} {m : recursive_mutex}
    (ha : m.available a) (hb : m.available b) (hlt : m.depth a < max_recursion) :
    ∃ m1, m.lock a = some m1 ∧
      (m1.unlock a).available a ∧ (m1.unlock a).available b ∧
      (m1.unlock a).depth b = m.depth b ∧
      (m1.unlock a).n_lock = m.n_lock + 1 ∧ (m1.unlock a).n_unlock = m.n_unlock + 1 ∧
      (m.wf → (m1.unlock a).owner = m.owner ∧ (m1.unlock a).count = m.count ∧
        (m1.unlock a).wf) := by
  obtain ⟨m1, hm1⟩ := recursive_mutex.lock_some_of_available ha
  obtain ⟨f1, f2, f3⟩ := recursive_mutex.lock_unlock_frame hm1 hb hlt
  obtain ⟨-, -, hnl, hnu⟩ := recursive_mutex.lock_any hm1
  obtain ⟨-, unu, unl⟩ := recursive_mutex.unlock_spec a m1
  refine ⟨m1, hm1, f1, f2, f3, by simp [unl, hnl], by simp [unu, hnu], ?_⟩
  intro hwf
  exact recursive_mutex.unlock_lock_frame hwf hm1 hlt

/-- Frame of `stop()` called by `a`, seen by a thread `b` that can take the mutex. -/
theorem thread_synchronizer.stop_frame {a b : ThreadId} {s : thread_synchronizer}
    (ha : s.m_mtx.available a) (hb : s.m_mtx.available b)
    (hlt : s.m_mtx.depth a < max_recursion) :
    ∃ s1, s.stop a = some s1 ∧ s1.m_stop = true ∧
      s1.m_mtx.available a ∧ s1.m_mtx.available b ∧ s1.m_mtx.depth b = s.m_mtx.depth b ∧
      s1.m_mtx.n_lock = s.m_mtx.n_lock + 1 ∧ s1.m_mtx.n_unlock = s.m_mtx.n_unlock + 1 ∧
      (s.m_mtx.wf → s1.m_mtx.owner = s.m_mtx.owner ∧ s1.m_mtx.count = s.m_mtx.count ∧
        s1.m_mtx.wf) := by
  obtain ⟨m1, hm1, h⟩ := recursive_mutex.lock_unlock_spec ha hb hlt
  exact ⟨_, thread_synchronizer.stop_eq hm1, rfl, h⟩

/-- Frame of `resume()` called by `a`, seen by a thread `b` that can take the mutex. -/
theorem thread_synchronizer.resume_frame {a b : ThreadId} {s : thread_synchronizer}
    (ha : s.m_mtx.available a) (hb : s.m_mtx.available b)
    (hlt : s.m_mtx.depth a < max_recursion) :
    ∃ s1, s.resume a = some s1 ∧ s1.m_stop = false ∧
      s1.m_mtx.available a ∧ s1.m_mtx.available b ∧ s1.m_mtx.depth b = s.m_mtx.depth b ∧
      s1.m_mtx.n_lock = s.m_mtx.n_lock + 1 ∧ s1.m_mtx.n_unlock = s.m_mtx.n_unlock + 1 ∧
      (s.m_mtx.wf → s1.m_mtx.owner = s.m_mtx.owner ∧ s1.m_mtx.count = s.m_mtx.count ∧
        s1.m_mtx.wf) := by
  obtain ⟨m1, hm1, h⟩ := recursive_mutex.lock_unlock_spec ha hb hlt
  exact ⟨_, thread_synchronizer.resume_eq hm1, rfl, h⟩

/-- Frame of `lock()` called by `a` on a Stopped gate, seen by a thread `b`. -/
theorem thread_synchronizer.lock_stopped_frame {a b : ThreadId} {s : thread_synchronizer}
    (hstop : s.m_stop = true) (ha : s.m_mtx.available a) (hb : s.m_mtx.available b)
    (hlt : s.m_mtx.depth a < max_recursion) :
    ∃ s1, s.lock a = some ({ m_locked := false }, s1) ∧ s1.m_stop = true ∧
      s1.m_mtx.available a ∧ s1.m_mtx.available b ∧ s1.m_mtx.depth b = s.m_mtx.depth b := by
  obtain ⟨m1, hm1, h1, h2, h3, -⟩ := recursive_mutex.lock_unlock_spec ha hb hlt
  exact ⟨_, thread_synchronizer.lock_stopped_eq hstop hm1, hstop, h1, h2, h3⟩

/-- A `lock()` called by `b` on a Running gate whose mutex `b` can take below the
maximum recursion count. -/
theorem thread_synchronizer.lock_running_spec {b : ThreadId} {s : thread_synchronizer}
    (hrun : s.m_stop = false) (hb : s.m_mtx.available b)
    (hlt : s.m_mtx.depth b < max_recursion) :
    ∃ s1, s.lock b = some ({ m_locked := true }, s1) ∧ s1.m_stop = false ∧
      s1.m_mtx.owner = some b ∧ s1.m_mtx.count = s.m_mtx.depth b + 1 ∧
      s1.m_mtx.depth b = s.m_mtx.depth b + 1 := by
  obtain ⟨m1, hm1⟩ := recursive_mutex.lock_some_of_available hb
  obtain ⟨ho, hc, hdep, -, -⟩ := recursive_mutex.lock_spec hm1 hlt
  exact ⟨_, thread_synchronizer.lock_running_eq hrun hm1, hrun, ho, hc, hdep⟩

theorem recursive_mutex.depth_lt_of_available {a b : ThreadId} {m : recursive_mutex}
    (ha : m.available a) (hb : m.available b) (hlt : m.depth b < max_recursion) :
    m.depth a < max_recursion := by
  rcases ha with ha | ha
  · simp [recursive_mutex.depth, ha, max_recursion_pos]
  · rcases hb with hb | hb
    · rw [ha] at hb; cases hb
    · rw [ha] at hb
      have hab : a = b := Option.some.inj hb
      subst hab
      exact hlt
/-! ## Sequences of calls -/

theorem World.run_append (t : ThreadId) (xs ys : List Op) (w : World) :
    World.run t (xs ++ ys) w = (World.run t xs w).bind (World.run t ys) := by
  induction xs generalizing w with
  | nil => simp [World.run]
  | cons x xs ih =>
    simp only [List.cons_append, World.run]
    cases hx : World.step t x w with
    | none => simp
    | some w1 => simpa using ih w1

theorem World.run_of_strict_run {t : ThreadId} (ops : List Op) {w w1 : World}
    (h : World.strict_run t ops w = some w1) : World.run t ops w = some w1 := by
  induction ops generalizing w with
  | nil => exact h
  | cons op ops ih =>
    simp only [World.strict_run, World.strict_step] at h
    cases hz : World.unlocks_at_zero t op w with
    | true => simp [hz] at h
    | false =>
      simp only [hz, Bool.false_eq_true, if_false] at h
      cases hs : World.step t op w with
      | none => simp [hs] at h
      | some w2 =>
        simp only [hs] at h
        simp only [World.run, hs]
        exact ih h

theorem recursive_mutex.owner_of_depth_pos {t : ThreadId} {m : recursive_mutex}
    (h : 1 ≤ m.depth t) : m.owner = some t ∧ m.count = m.depth t := by
  unfold recursive_mutex.depth at h ⊢
  by_cases ho : m.owner = some t
  · simp [ho]
  · simp [ho] at h

theorem recursive_mutex.unlock_owner {t : ThreadId} {m : recursive_mutex}
    (h : 1 ≤ m.depth t) :
    (m.depth t = 1 → (m.unlock t).owner = none) ∧
      (2 ≤ m.depth t → (m.unlock t).owner = some t) := by
  obtain ⟨ho, hc⟩ := recursive_mutex.owner_of_depth_pos h
  rw [← hc]
  constructor
  · intro h1
    simp [recursive_mutex.unlock, ho, h1]
  · intro h2
    have : ¬ m.count - 1 = 0 := by omega
    simp [recursive_mutex.unlock, ho, this]

theorem recursive_mutex.unlock_of_free {t : ThreadId} {m : recursive_mutex}
    (h : m.owner = none) : (m.unlock t).owner = none := by
  simp [recursive_mutex.unlock, h]

theorem World.overfull_available {t : ThreadId} {k n : Nat} {w : World}
    (h : w.overfull t k n) : w.sync.m_mtx.available t := by
  obtain ⟨-, -, -, -, hdep, hfree⟩ := h
  rcases Nat.eq_zero_or_pos (n - k) with h0 | hpos
  · exact Or.inl (hfree h0)
  · exact Or.inr (recursive_mutex.owner_of_depth_pos (by omega)).1

/-- One more nested `lock()`: a level is added below the maximum recursion count,
and none at it, where the guard is locked all the same. -/
theorem World.overfull_lock {t : ThreadId} {n : Nat} {w : World}
    (h : w.overfull t (n - max_recursion) n) :
    ∃ w1, World.strict_step t Op.lock w = some w1 ∧
      w1.overfull t (n + 1 - max_recursion) (n + 1) := by
  have hav := World.overfull_available h
  obtain ⟨hlen, hall, hrun, htemps, hdep, hfree⟩ := h
  have hpos := max_recursion_pos
  obtain ⟨m1, hm1⟩ := recursive_mutex.lock_some_of_available hav
  have hs1 := thread_synchronizer.lock_running_eq hrun hm1
  have hstep : World.strict_step t Op.lock w =
      some { w with sync := { w.sync with m_mtx := m1 },
                    guards := w.guards ++ [{ m_locked := true }] } := by
    simp [World.strict_step, World.unlocks_at_zero, World.step, hs1]
  have hdep1 : m1.depth t = n + 1 - (n + 1 - max_recursion) := by
    rcases Nat.lt_or_ge (w.sync.m_mtx.depth t) max_recursion with hlt | hge
    · rw [(recursive_mutex.lock_spec hm1 hlt).2.2.1, hdep]
      omega
    · have hmax : w.sync.m_mtx.depth t = max_recursion :=
        Nat.le_antisymm (recursive_mutex.depth_le_max _ _) hge
      rw [(recursive_mutex.lock_at_max hm1 hmax).2.2.1, hdep]
      omega
  refine ⟨_, hstep, ?_, ?_, hrun, htemps, hdep1, ?_⟩
  · simp [hlen]
  · intro g hg
    rcases List.mem_append.mp hg with hg | hg
    · exact hall g hg
    · simp at hg; subst hg; rfl
  · intro h0; omega

theorem World.overfull_destroy {t : ThreadId} {k n i : Nat} {w : World}
    (h : w.overfull t k n) (hi : i < n) :
    ∃ w1, World.step t (Op.destroy i) w = some w1 ∧ w1.overfull t k (n - 1) := by
  obtain ⟨hlen, hall, hrun, htemps, hdep, hfree⟩ := h
  have hlt : i < w.guards.length := by omega
  have hget : w.guards[i]? = some w.guards[i] := List.getElem?_eq_getElem hlt
  have hlk : w.guards[i].m_locked = true := hall _ (List.getElem_mem hlt)
  have hstep : World.step t (Op.destroy i) w =
      some { w with sync := { w.sync with m_mtx := w.guards[i].dtor t w.sync.m_mtx },
                    guards := w.guards.eraseIdx i } := by
    simp only [World.step, hget]
  refine ⟨_, hstep, ?_, ?_, hrun, htemps, ?_, ?_⟩
  · show (w.guards.eraseIdx i).length = n - 1
    rw [List.length_eraseIdx_of_lt hlt, hlen]
  · intro g hg
    exact hall g (List.mem_of_mem_eraseIdx hg)
  · show (w.guards[i].dtor t w.sync.m_mtx).depth t = n - 1 - k
    simp only [recursive_mutex_lock.dtor, hlk, if_true,
      (recursive_mutex.unlock_spec t _).1, hdep]
    omega
  · intro h0
    show (w.guards[i].dtor t w.sync.m_mtx).owner = none
    simp only [recursive_mutex_lock.dtor, hlk, if_true]
    rcases Nat.eq_zero_or_pos (n - k) with hz | hpos
    · exact recursive_mutex.unlock_of_free (hfree hz)
    · exact (recursive_mutex.unlock_owner (by omega)).1 (by omega)

theorem World.overfull_lock_n {t : ThreadId} (j : Nat) {n : Nat} {w : World}
    (h : w.overfull t (n - max_recursion) n) :
    ∃ w1, World.strict_run t (List.replicate j Op.lock) w = some w1 ∧
      w1.overfull t (n + j - max_recursion) (n + j) := by
  induction j generalizing n w with
  | zero => exact ⟨w, rfl, h⟩
  | succ j ih =>
    obtain ⟨w1, hw1, hn1⟩ := World.overfull_lock h
    obtain ⟨w2, hw2, hn2⟩ := ih hn1
    refine ⟨w2, ?_, ?_⟩
    · simp only [List.replicate_succ, World.strict_run, hw1, hw2]
    · have : n + (j + 1) = n + 1 + j := by omega
      rw [this]; exact hn2

theorem World.overfull_destroy_first {t : ThreadId} (j : Nat) {k n : Nat} {w : World}
    (h : w.overfull t k n) (hj : j ≤ n) :
    ∃ w1, World.run t (List.replicate j (Op.destroy 0)) w = some w1 ∧
      w1.overfull t k (n - j) := by
  induction j generalizing n w with
  | zero => exact ⟨w, rfl, h⟩
  | succ j ih =>
    obtain ⟨w1, hw1, hn1⟩ := World.overfull_destroy (i := 0) h (by omega)
    obtain ⟨w2, hw2, hn2⟩ := ih hn1 (by omega)
    refine ⟨w2, ?_, ?_⟩
    · simp only [List.replicate_succ, World.run, hw1, hw2]
    · have : n - (j + 1) = n - 1 - j := by omega
      rw [this]; exact hn2

theorem World.overfull_destroy_list {t : ThreadId} (idxs : List Nat) {k n : Nat}
    {w : World} (h : w.overfull t k n) (hidx : ∀ j i, idxs[j]? = some i → i < n - j) :
    ∃ w1, World.run t (idxs.map Op.destroy) w = some w1 ∧
      w1.overfull t k (n - idxs.length) := by
  induction idxs generalizing n w with
  | nil => exact ⟨w, rfl, h⟩
  | cons i idxs ih =>
    have hi : i < n := by simpa using hidx 0 i (by simp)
    obtain ⟨w1, hw1, hn1⟩ := World.overfull_destroy h hi
    have hidx1 : ∀ j k, idxs[j]? = some k → k < n - 1 - j := by
      intro j k hk
      have := hidx (j + 1) k (by simpa using hk)
      omega
    obtain ⟨w2, hw2, hn2⟩ := ih hn1 hidx1
    refine ⟨w2, ?_, ?_⟩
    · simp [World.run, hw1, hw2]
    · have : n - (i :: idxs).length = n - 1 - idxs.length := by simp; omega
      rw [this]; exact hn2

theorem World.overfull_start {t : ThreadId} {s : thread_synchronizer}
    (hrun : s.m_stop = false) (hfree : s.m_mtx.owner = none) :
    World.overfull t (0 - max_recursion) 0 { sync := s, guards := [], temps := 0 } :=
  ⟨rfl, by simp, hrun, rfl, by simp [recursive_mutex.depth, hfree], fun _ => hfree⟩

theorem World.locked_count_of_all_locked {w : World}
    (h : ∀ g ∈ w.guards, g.m_locked = true) : w.locked_count = w.guards.length := by
  unfold World.locked_count
  exact List.countP_eq_length.mpr h

/-! ## Counting the locked guards -/

theorem List.countP_set_add {α : Type} {l : List α} {i : Nat} {x : α}
    (h : l[i]? = some x) (p : α → Bool) (a : α) :
    (l.set i a).countP p + (if p x then 1 else 0) = l.countP p + (if p a then 1 else 0) := by
  induction l generalizing i with
  | nil => simp at h
  | cons y l ih =>
    cases i with
    | zero =>
      simp only [List.getElem?_cons_zero, Option.some.injEq] at h
      subst h
      simp only [List.set_cons_zero, List.countP_cons]
      omega
    | succ i =>
      simp only [List.getElem?_cons_succ] at h
      have := ih h
      simp only [List.set_cons_succ, List.countP_cons]
      omega

theorem List.countP_eraseIdx_add {α : Type} {l : List α} {i : Nat} {x : α}
    (h : l[i]? = some x) (p : α → Bool) :
    (l.eraseIdx i).countP p + (if p x then 1 else 0) = l.countP p := by
  induction l generalizing i with
  | nil => simp at h
  | cons y l ih =>
    cases i with
    | zero =>
      simp only [List.getElem?_cons_zero, Option.some.injEq] at h
      subst h
      simp only [List.eraseIdx_cons_zero, List.countP_cons]
    | succ i =>
      simp only [List.getElem?_cons_succ] at h
      have := ih h
      simp only [List.eraseIdx_cons_succ, List.countP_cons]
      omega

/-! ## Invariants of the reachable states -/

theorem recursive_mutex.lock_wf {t : ThreadId} {m m1 : recursive_mutex}
    (h : m.lock t = some m1) : m1.wf ∧ m1.available t := by
  obtain ⟨ho, hc, -⟩ := recursive_mutex.lock_any h
  refine ⟨?_, Or.inr ho⟩
  unfold recursive_mutex.wf
  rw [ho]
  constructor
  · intro h0; cases h0
  · intro h0; omega

theorem World.depth_lt_of_not_at_max {t : ThreadId} {w : World}
    (h : decide (w.sync.m_mtx.depth t = max_recursion) = false) :
    w.sync.m_mtx.depth t < max_recursion := by
  have hne : w.sync.m_mtx.depth t ≠ max_recursion := by simpa using h
  have hle := recursive_mutex.depth_le_max w.sync.m_mtx t
  omega

theorem recursive_mutex.unlock_wf {t : ThreadId} {m : recursive_mutex}
    (hwf : m.wf) (hav : m.available t) : (m.unlock t).wf ∧ (m.unlock t).available t := by
  rcases m with ⟨o, c, nl, nu, hcm⟩
  simp only [recursive_mutex.wf] at hwf
  by_cases ho : o = some t
  · subst ho
    by_cases hc : c - 1 = 0
    · simp [recursive_mutex.unlock, recursive_mutex.wf, recursive_mutex.available, hc]
    · simp [recursive_mutex.unlock, recursive_mutex.wf, recursive_mutex.available, hc]
  · simp only [recursive_mutex.unlock, ho, if_false]
    exact ⟨hwf, hav⟩

theorem thread_synchronizer.lock_some_spec {t : ThreadId} {s s1 : thread_synchronizer}
    {g : recursive_mutex_lock} (h : s.lock t = some (g, s1))
    (hlt : s.m_mtx.depth t < max_recursion) :
    g.m_locked = !s.m_stop ∧ s1.m_stop = s.m_stop ∧
      s1.m_mtx.depth t = s.m_mtx.depth t + (if g.m_locked then 1 else 0) ∧
      s1.m_mtx.wf ∧ s1.m_mtx.available t := by
  cases hm : s.m_mtx.lock t with
  | none => rw [(thread_synchronizer.lock_none hm).1] at h; cases h
  | some m1 =>
    obtain ⟨-, -, ldep, -, -⟩ := recursive_mutex.lock_spec hm hlt
    obtain ⟨lwf, lav⟩ := recursive_mutex.lock_wf hm
    cases hs : s.m_stop with
    | false =>
      rw [thread_synchronizer.lock_running_eq hs hm] at h
      obtain ⟨rfl, rfl⟩ := Prod.mk.inj (Option.some.inj h)
      exact ⟨rfl, hs, by simp [ldep], lwf, lav⟩
    | true =>
      rw [thread_synchronizer.lock_stopped_eq hs hm] at h
      obtain ⟨rfl, rfl⟩ := Prod.mk.inj (Option.some.inj h)
      obtain ⟨uwf, uav⟩ := recursive_mutex.unlock_wf lwf lav
      exact ⟨rfl, hs, by simp [(recursive_mutex.unlock_spec t m1).1, ldep], uwf, uav⟩

theorem thread_synchronizer.stop_some_spec {t : ThreadId} {s s1 : thread_synchronizer}
    (h : s.stop t = some s1) (hlt : s.m_mtx.depth t < max_recursion) :
    s1.m_stop = true ∧ s1.m_mtx.depth t = s.m_mtx.depth t ∧
      s1.m_mtx.wf ∧ s1.m_mtx.available t := by
  cases hm : s.m_mtx.lock t with
  | none => rw [(thread_synchronizer.lock_none hm).2.1] at h; cases h
  | some m1 =>
    obtain ⟨-, -, ldep, -, -⟩ := recursive_mutex.lock_spec hm hlt
    obtain ⟨lwf, lav⟩ := recursive_mutex.lock_wf hm
    obtain ⟨uwf, uav⟩ := recursive_mutex.unlock_wf lwf lav
    rw [thread_synchronizer.stop_eq hm] at h
    cases Option.some.inj h
    exact ⟨rfl, by simp [(recursive_mutex.unlock_spec t m1).1, ldep], uwf, uav⟩

theorem thread_synchronizer.resume_some_spec {t : ThreadId} {s s1 : thread_synchronizer}
    (h : s.resume t = some s1) (hlt : s.m_mtx.depth t < max_recursion) :
    s1.m_stop = false ∧ s1.m_mtx.depth t = s.m_mtx.depth t ∧
      s1.m_mtx.wf ∧ s1.m_mtx.available t := by
  cases hm : s.m_mtx.lock t with
  | none => rw [(thread_synchronizer.lock_none hm).2.2] at h; cases h
  | some m1 =>
    obtain ⟨-, -, ldep, -, -⟩ := recursive_mutex.lock_spec hm hlt
    obtain ⟨lwf, lav⟩ := recursive_mutex.lock_wf hm
    obtain ⟨uwf, uav⟩ := recursive_mutex.unlock_wf lwf lav
    rw [thread_synchronizer.resume_eq hm] at h
    cases Option.some.inj h
    exact ⟨rfl, by simp [(recursive_mutex.unlock_spec t m1).1, ldep], uwf, uav⟩

theorem World.inv_init (t : ThreadId) : World.init.inv t :=
  ⟨by decide, Or.inl rfl, Nat.zero_le _⟩

theorem World.inv_step {t : ThreadId} {op : Op} {w w1 : World} (hinv : w.inv t)
    (hm : World.locks_at_max t op w = false) (h : World.step t op w = some w1) :
    w1.inv t := by
  obtain ⟨hwf, hav, hbal⟩ := hinv
  unfold World.locked_count at hbal
  cases op with
  | lock =>
    simp only [World.step] at h
    cases hl : w.sync.lock t with
    | none => simp [hl] at h
    | some r =>
      obtain ⟨g, s1⟩ := r
      simp only [hl, Option.some.injEq] at h
      subst h
      obtain ⟨-, -, hdep, wf1, av1⟩ :=
        thread_synchronizer.lock_some_spec hl (World.depth_lt_of_not_at_max hm)
      refine ⟨wf1, av1, ?_⟩
      simp only [World.locked_count, List.countP_append, List.countP_cons, List.countP_nil,
        hdep]
      omega
  | move i =>
    simp only [World.step] at h
    cases hg : w.guards[i]? with
    | none => simp [hg] at h
    | some g0 =>
      simp only [hg, Option.some.injEq] at h
      subst h
      refine ⟨hwf, hav, ?_⟩
      have hc := List.countP_set_add hg (fun g : recursive_mutex_lock => g.m_locked)
        (recursive_mutex_lock.move_ctor g0).2
      simp only [World.locked_count, List.countP_append]
      simp only [recursive_mutex_lock.move_ctor] at hc ⊢
      cases hb : g0.m_locked <;> simp [hb, List.countP_cons] at hc ⊢ <;> omega
  | destroy i =>
    simp only [World.step] at h
    cases hg : w.guards[i]? with
    | none => simp [hg] at h
    | some g0 =>
      simp only [hg, Option.some.injEq] at h
      subst h
      have hc := List.countP_eraseIdx_add hg (fun g : recursive_mutex_lock => g.m_locked)
      cases hb : g0.m_locked with
      | false =>
        refine ⟨by simpa [recursive_mutex_lock.dtor, hb] using hwf,
          by simpa [recursive_mutex_lock.dtor, hb] using hav, ?_⟩
        simp only [World.locked_count, recursive_mutex_lock.dtor, hb]
        simp [hb] at hc
        simp only [Bool.false_eq_true, if_false]
        omega
      | true =>
        obtain ⟨uwf, uav⟩ := recursive_mutex.unlock_wf hwf hav
        refine ⟨by simpa [recursive_mutex_lock.dtor, hb] using uwf,
          by simpa [recursive_mutex_lock.dtor, hb] using uav, ?_⟩
        simp only [World.locked_count, recursive_mutex_lock.dtor, hb, if_true,
          (recursive_mutex.unlock_spec t w.sync.m_mtx).1]
        simp [hb] at hc
        omega
  | stop =>
    simp only [World.step] at h
    cases hl : w.sync.stop t with
    | none => simp [hl] at h
    | some s1 =>
      simp only [hl, Option.some.injEq] at h
      subst h
      obtain ⟨-, hdep, wf1, av1⟩ :=
        thread_synchronizer.stop_some_spec hl (World.depth_lt_of_not_at_max hm)
      exact ⟨wf1, av1, by simp only [World.locked_count, hdep]; exact hbal⟩
  | resume =>
    simp only [World.step] at h
    cases hl : w.sync.resume t with
    | none => simp [hl] at h
    | some s1 =>
      simp only [hl, Option.some.injEq] at h
      subst h
      obtain ⟨-, hdep, wf1, av1⟩ :=
        thread_synchronizer.resume_some_spec hl (World.depth_lt_of_not_at_max hm)
      exact ⟨wf1, av1, by simp only [World.locked_count, hdep]; exact hbal⟩
  | temp_ctor =>
    simp only [World.step] at h
    by_cases hd : 1 ≤ w.sync.m_mtx.depth t
    · simp only [hd, if_true, Option.some.injEq] at h
      subst h
      obtain ⟨uwf, uav⟩ := recursive_mutex.unlock_wf hwf hav
      refine ⟨uwf, uav, ?_⟩
      simp only [World.locked_count, temporary_unlock.ctor,
        (recursive_mutex.unlock_spec t w.sync.m_mtx).1]
      omega
    · simp [hd] at h
  | temp_dtor =>
    simp only [World.step] at h
    by_cases hd : 1 ≤ w.temps
    · simp only [hd, if_true] at h
      cases hl : temporary_unlock.dtor t w.sync with
      | none => simp [hl] at h
      | some s1 =>
        simp only [hl, Option.some.injEq] at h
        subst h
        simp only [temporary_unlock.dtor] at hl
        cases hm1 : w.sync.m_mtx.lock t with
        | none => simp [hm1] at hl
        | some m1 =>
          simp only [hm1, Option.some.injEq] at hl
          subst hl
          obtain ⟨-, -, ldep, -, -⟩ :=
            recursive_mutex.lock_spec hm1 (World.depth_lt_of_not_at_max hm)
          obtain ⟨lwf, lav⟩ := recursive_mutex.lock_wf hm1
          refine ⟨lwf, lav, ?_⟩
          simp only [World.locked_count, ldep]
          omega
    · simp [hd] at h

theorem World.bounded_run_spec {t : ThreadId} (ops : List Op) {w w1 : World}
    (hinv : w.inv t) (h : World.bounded_run t ops w = some w1) :
    World.run t ops w = some w1 ∧ w1.inv t := by
  induction ops generalizing w with
  | nil =>
    simp only [World.bounded_run, Option.some.injEq] at h
    subst h; exact ⟨rfl, hinv⟩
  | cons op ops ih =>
    simp only [World.bounded_run, World.bounded_step] at h
    cases hm : World.locks_at_max t op w with
    | true => simp [hm] at h
    | false =>
      simp only [hm, Bool.false_eq_true, if_false] at h
      cases hs : World.step t op w with
      | none => simp [hs] at h
      | some w2 =>
        simp only [hs] at h
        obtain ⟨hr, hi⟩ := ih (World.inv_step hinv hm hs) h
        exact ⟨by simp only [World.run, hs, hr], hi⟩

/-! ## The interleaved threads -/

theorem recursive_mutex.available_of_lock_some {t : ThreadId} {m m1 : recursive_mutex}
    (h : m.lock t = some m1) : m.available t := by
  rcases m with ⟨o, c, nl, nu, hcm⟩
  cases o with
  | none => exact Or.inl rfl
  | some o =>
    by_cases ho : o = t
    · subst ho; exact Or.inr rfl
    · simp [recursive_mutex.lock, ho] at h

theorem recursive_mutex_lock.ctor_some {t : ThreadId} {m m1 : recursive_mutex}
    {g : recursive_mutex_lock} (h : recursive_mutex_lock.ctor t m = some (g, m1)) :
    g.m_locked = true ∧ m.lock t = some m1 := by
  unfold recursive_mutex_lock.ctor at h
  cases hl : m.lock t with
  | none => simp [hl] at h
  | some m2 =>
    simp only [hl, Option.some.injEq, Prod.mk.injEq] at h
    obtain ⟨rfl, rfl⟩ := h
    exact ⟨rfl, rfl⟩

theorem List.sum_map_set_add {α : Type} {l : List α} {i : Nat} {x : α}
    (h : l[i]? = some x) (f : α → Nat) (a : α) :
    ((l.set i a).map f).sum + f x = (l.map f).sum + f a := by
  induction l generalizing i with
  | nil => simp at h
  | cons y l ih =>
    cases i with
    | zero =>
      simp only [List.getElem?_cons_zero, Option.some.injEq] at h
      subst h
      simp only [List.set_cons_zero, List.map_cons, List.sum_cons]
      omega
    | succ i =>
      simp only [List.getElem?_cons_succ] at h
      have := ih h
      simp only [List.set_cons_succ, List.map_cons, List.sum_cons]
      omega

/-- The entry of a thread list after entry `i` was replaced. -/
theorem List.getElem?_set_cases {α : Type} {l : List α} {i j : Nat} {a x b : α}
    (hi : l[i]? = some x) (hj : (l.set i a)[j]? = some b) :
    (j = i ∧ b = a) ∨ (j ≠ i ∧ l[j]? = some b) := by
  by_cases hij : i = j
  · subst hij
    have hlt : i < l.length := (List.getElem?_eq_some.mp hi).1
    rw [List.getElem?_set_self hlt] at hj
    exact Or.inl ⟨rfl, (Option.some.inj hj).symm⟩
  · rw [List.getElem?_set_ne hij] at hj
    exact Or.inr ⟨fun h => hij h.symm, hj⟩

theorem Shared.inv_preserved {total : Nat} {i : ThreadId} {s s1 : Shared} (hinv : s.inv total)
    (h : Shared.step i s = some s1) : s1.inv total := by
  obtain ⟨hc, hsum, hw, hown⟩ := hinv
  unfold Shared.step at h
  cases hwi : s.workers[i]? with
  | none => simp [hwi] at h
  | some w =>
    simp only [hwi] at h
    obtain ⟨h0, hin, hreg⟩ := hw i w hwi
    have hlt : i < s.workers.length := (List.getElem?_eq_some.mp hwi).1
    have others : ∀ j wj, j ≠ i → s.workers[j]? = some wj →
        (s.mtx.owner = none ∨ s.mtx.owner = some i) → wj.pc = 0 := by
      intro j wj hji hj ho
      by_contra hne
      have hoj := ((hw j wj hj).2.1 hne).1
      rcases ho with ho | ho
      · rw [ho] at hoj; cases hoj
      · rw [ho] at hoj; exact hji (Option.some.inj hoj).symm
    by_cases hpc0 : w.pc = 0
    · rw [if_pos hpc0] at h
      by_cases htodo : w.todo = 0
      · rw [if_pos htodo] at h; cases h
      · rw [if_neg htodo] at h
        cases hct : recursive_mutex_lock.ctor i s.mtx with
        | none => rw [hct] at h; cases h
        | some r =>
          obtain ⟨g, m⟩ := r
          rw [hct] at h
          simp only [Option.some.injEq] at h
          subst h
          obtain ⟨hg, hl⟩ := recursive_mutex_lock.ctor_some hct
          have hfree : s.mtx.owner = none := by
            rcases recursive_mutex.available_of_lock_some hl with ho | ho
            · exact ho
            · exact absurd ho (h0 hpc0)
          have hdep : s.mtx.depth i = 0 := by simp [recursive_mutex.depth, hfree]
          obtain ⟨mo, mc, -⟩ :=
            recursive_mutex.lock_spec hl (by rw [hdep]; exact max_recursion_pos)
          refine ⟨?_, ?_, ?_, ?_⟩
          · have := List.sum_map_set_add hwi Worker.done { w with pc := 1, guard := g }
            simp only at this ⊢
            omega
          · have := List.sum_map_set_add hwi (fun w => w.done + w.todo)
              { w with pc := 1, guard := g }
            simp only at this ⊢
            omega
          · intro j wj hj
            rcases List.getElem?_set_cases hwi hj with ⟨rfl, rfl⟩ | ⟨hji, hj0⟩
            · exact ⟨fun h => by simp at h,
                fun _ => ⟨mo, by rw [mc, hdep], hg, by simp, fun _ => Nat.pos_of_ne_zero htodo⟩,
                fun h => by simp at h⟩
            · have hpj := others j wj hji hj0 (Or.inl hfree)
              refine ⟨fun _ => ?_, fun h => absurd hpj h, fun h => by omega⟩
              show m.owner ≠ some j
              rw [mo]
              exact fun h => hji (Option.some.inj h).symm
          · intro k hk
            have hki : i = k := by
              have : m.owner = some k := hk
              rw [mo] at this
              exact Option.some.inj this
            subst hki
            exact ⟨_, List.getElem?_set_self hlt, by simp⟩
    · rw [if_neg hpc0] at h
      obtain ⟨ho, hcnt, hg, hle, htd⟩ := hin hpc0
      by_cases hpc1 : w.pc = 1
      · rw [if_pos hpc1] at h
        simp only [Option.some.injEq] at h
        subst h
        refine ⟨?_, ?_, ?_, ?_⟩
        · have := List.sum_map_set_add hwi Worker.done { w with pc := 2, reg := s.counter }
          simp only at this ⊢
          omega
        · have := List.sum_map_set_add hwi (fun w => w.done + w.todo)
            { w with pc := 2, reg := s.counter }
          simp only at this ⊢
          omega
        · intro j wj hj
          rcases List.getElem?_set_cases hwi hj with ⟨rfl, rfl⟩ | ⟨hji, hj0⟩
          · exact ⟨fun h => by simp at h,
              fun _ => ⟨ho, hcnt, hg, by simp, fun _ => htd (by omega)⟩, fun _ => rfl⟩
          · have hpj := others j wj hji hj0 (Or.inr ho)
            exact ⟨(hw j wj hj0).1, fun h => absurd hpj h, fun h => by omega⟩
        · intro k hk
          have hki : i = k := by
            have : s.mtx.owner = some k := hk
            rw [ho] at this
            exact Option.some.inj this
          subst hki
          exact ⟨_, List.getElem?_set_self hlt, by simp⟩
      · rw [if_neg hpc1] at h
        by_cases hpc2 : w.pc = 2
        · rw [if_pos hpc2] at h
          simp only [Option.some.injEq] at h
          subst h
          have hr := hreg hpc2
          have htd1 : 1 ≤ w.todo := htd (by omega)
          refine ⟨?_, ?_, ?_, ?_⟩
          · have := List.sum_map_set_add hwi Worker.done
              { w with pc := 3, todo := w.todo - 1, done := w.done + 1 }
            simp only at this ⊢
            omega
          · have := List.sum_map_set_add hwi (fun w => w.done + w.todo)
              { w with pc := 3, todo := w.todo - 1, done := w.done + 1 }
            simp only at this ⊢
            omega
          · intro j wj hj
            rcases List.getElem?_set_cases hwi hj with ⟨rfl, rfl⟩ | ⟨hji, hj0⟩
            · exact ⟨fun h => by simp at h,
                fun _ => ⟨ho, hcnt, hg, by simp, fun h => by simp at h⟩, fun h => by simp at h⟩
            · have hpj := others j wj hji hj0 (Or.inr ho)
              exact ⟨(hw j wj hj0).1, fun h => absurd hpj h, fun h => by omega⟩
          · intro k hk
            have hki : i = k := by
              have : s.mtx.owner = some k := hk
              rw [ho] at this
              exact Option.some.inj this
            subst hki
            exact ⟨_, List.getElem?_set_self hlt, by simp⟩
        · rw [if_neg hpc2] at h
          simp only [Option.some.injEq] at h
          subst h
          have hdep : s.mtx.depth i = 1 := by simp [recursive_mutex.depth, ho, hcnt]
          have hfree : (w.guard.dtor i s.mtx).owner = none := by
            simp only [recursive_mutex_lock.dtor, hg, if_true]
            exact (recursive_mutex.unlock_owner (by omega)).1 hdep
          refine ⟨?_, ?_, ?_, ?_⟩
          · have := List.sum_map_set_add hwi Worker.done { w with pc := 0 }
            simp only at this ⊢
            omega
          · have := List.sum_map_set_add hwi (fun w => w.done + w.todo) { w with pc := 0 }
            simp only at this ⊢
            omega
          · intro j wj hj
            rcases List.getElem?_set_cases hwi hj with ⟨rfl, rfl⟩ | ⟨hji, hj0⟩
            · refine ⟨fun _ => ?_, fun h => by simp at h, fun h => by simp at h⟩
              show (w.guard.dtor j s.mtx).owner ≠ some j
              rw [hfree]; simp
            · have hpj := others j wj hji hj0 (Or.inr ho)
              refine ⟨fun _ => ?_, fun h => absurd hpj h, fun h => by omega⟩
              show (w.guard.dtor i s.mtx).owner ≠ some j
              rw [hfree]; simp
          · intro k hk
            have : (w.guard.dtor i s.mtx).owner = some k := hk
            rw [hfree] at this
            cases this

theorem Shared.inv_reachable {total : Nat} (sched : List ThreadId) {s s1 : Shared}
    (hinv : s.inv total) (h : Shared.run sched s = some s1) : s1.inv total := by
  induction sched generalizing s with
  | nil =>
    simp only [Shared.run, Option.some.injEq] at h
    subst h; exact hinv
  | cons i sched ih =>
    simp only [Shared.run] at h
    cases hs : Shared.step i s with
    | none => simp [hs] at h
    | some s2 =>
      simp only [hs] at h
      exact ih (Shared.inv_preserved hinv hs) h

theorem Shared.inv_start (todo : List Nat) : (Shared.start todo).inv todo.sum := by
  refine ⟨?_, ?_, ?_, ?_⟩
  · show 0 = _
    simp only [Shared.start, List.map_map]
    induction todo with
    | nil => rfl
    | cons k ks ih => simpa using ih
  · simp only [Shared.start, List.map_map]
    induction todo with
    | nil => rfl
    | cons k ks ih =>
      simp only [List.map_cons, List.sum_cons, Function.comp_apply, Nat.zero_add] at ih ⊢
      rw [ih]
  · intro i w hi
    simp only [Shared.start, List.getElem?_map] at hi
    cases hk : todo[i]? with
    | none => simp [hk] at hi
    | some k =>
      simp only [hk, Option.map_some', Option.some.injEq] at hi
      subst hi
      exact ⟨fun _ => by simp [Shared.start, recursive_mutex.init], fun h => absurd rfl h,
        fun h => by simp at h⟩
  · intro i hi
    simp [Shared.start, recursive_mutex.init] at hi

theorem Shared.sum_done_of_finished (l : List Worker) (h : ∀ w ∈ l, w.pc = 0 ∧ w.todo = 0) :
    (l.map (fun w => w.done + w.todo)).sum = (l.map Worker.done).sum := by
  induction l with
  | nil => rfl
  | cons w l ih =>
    have hw := (h w (List.mem_cons_self _ _)).2
    have := ih (fun x hx => h x (List.mem_cons_of_mem _ hx))
    simp only [List.map_cons, List.sum_cons]
    omega

theorem recursive_mutex_lock.ctor_of_lock {t : ThreadId} {m m1 : recursive_mutex}
    (h : m.lock t = some m1) :
    recursive_mutex_lock.ctor t m = some ({ m_locked := true }, m1) := by
  simp [recursive_mutex_lock.ctor, h]

theorem recursive_mutex_lock.ctor_none_iff {t : ThreadId} {m : recursive_mutex} :
    recursive_mutex_lock.ctor t m = none ↔ ∃ o, m.owner = some o ∧ o ≠ t := by
  constructor
  · intro h
    cases ho : m.owner with
    | none =>
      obtain ⟨m1, hm1⟩ := recursive_mutex.lock_some_of_available (t := t) (Or.inl ho)
      rw [recursive_mutex_lock.ctor_of_lock hm1] at h
      cases h
    | some o =>
      refine ⟨o, rfl, ?_⟩
      intro hot
      subst hot
      obtain ⟨m1, hm1⟩ := recursive_mutex.lock_some_of_available (Or.inr ho)
      rw [recursive_mutex_lock.ctor_of_lock hm1] at h
      cases h
  · rintro ⟨o, ho, hne⟩
    simp [recursive_mutex_lock.ctor, recursive_mutex.lock, ho, hne]

theorem Shared.step_blocked_iff {total : Nat} {s : Shared} (hinv : s.inv total)
    {j : ThreadId} {wj : Worker} (hj : s.workers[j]? = some wj) (hpc : wj.pc = 0)
    (htodo : wj.todo ≠ 0) :
    Shared.step j s = none ↔ ∃ i wi, i ≠ j ∧ s.workers[i]? = some wi ∧ wi.pc ≠ 0 := by
  obtain ⟨-, -, hw, hown⟩ := hinv
  have hstep : Shared.step j s = none ↔ recursive_mutex_lock.ctor j s.mtx = none := by
    unfold Shared.step
    simp only [hj, hpc, if_true, htodo, if_false]
    cases hct : recursive_mutex_lock.ctor j s.mtx with
    | none => simp
    | some r => simp
  rw [hstep, recursive_mutex_lock.ctor_none_iff]
  constructor
  · rintro ⟨o, ho, hne⟩
    obtain ⟨w, hwo, hpo⟩ := hown o ho
    exact ⟨o, w, hne, hwo, hpo⟩
  · rintro ⟨i, wi, hne, hi, hpi⟩
    exact ⟨i, ((hw i wi hi).2.1 hpi).1, hne⟩

theorem Shared.progress {total : Nat} {s : Shared} (hinv : s.inv total)
    (h : ∃ w ∈ s.workers, w.pc ≠ 0 ∨ w.todo ≠ 0) : ∃ i s1, Shared.step i s = some s1 := by
  by_cases hex : ∃ (i : Nat) (wi : Worker), s.workers[i]? = some wi ∧ wi.pc ≠ 0
  · obtain ⟨i, wi, hi, hpi⟩ := hex
    refine ⟨i, ?_⟩
    unfold Shared.step
    simp only [hi, hpi, if_false]
    by_cases h1 : wi.pc = 1
    · exact ⟨_, by rw [if_pos h1]⟩
    · rw [if_neg h1]
      by_cases h2 : wi.pc = 2
      · exact ⟨_, by rw [if_pos h2]⟩
      · exact ⟨_, by rw [if_neg h2]⟩
  · obtain ⟨w, hmem, hw⟩ := h
    obtain ⟨k, hk⟩ := List.mem_iff_getElem?.mp hmem
    have hpc : w.pc = 0 := by
      by_contra hne
      exact hex ⟨k, w, hk, hne⟩
    have htodo : w.todo ≠ 0 := by
      rcases hw with hw | hw
      · exact absurd hpc hw
      · exact hw
    have hfree : s.mtx.owner = none := by
      cases ho : s.mtx.owner with
      | none => rfl
      | some o =>
        obtain ⟨wo, hwo, hpo⟩ := hinv.2.2.2 o ho
        exact absurd ⟨o, wo, hwo, hpo⟩ hex
    obtain ⟨m1, hm1⟩ := recursive_mutex.lock_some_of_available (t := k) (Or.inl hfree)
    refine ⟨k, ?_⟩
    unfold Shared.step
    simp only [hk, hpc, if_true, htodo, if_false, recursive_mutex_lock.ctor_of_lock hm1]
    exact ⟨_, rfl⟩

/-! ## The balance of locks and unlocks -/

theorem thread_synchronizer.lock_some_counts {t : ThreadId} {s s1 : thread_synchronizer}
    {g : recursive_mutex_lock} (h : s.lock t = some (g, s1)) :
    s1.m_mtx.n_lock = s.m_mtx.n_lock + 1 ∧
      s1.m_mtx.n_unlock = s.m_mtx.n_unlock + (if g.m_locked then 0 else 1) := by
  cases hm : s.m_mtx.lock t with
  | none => rw [(thread_synchronizer.lock_none hm).1] at h; cases h
  | some m1 =>
    obtain ⟨-, -, lnl, lnu⟩ := recursive_mutex.lock_any hm
    obtain ⟨-, unu, unl⟩ := recursive_mutex.unlock_spec t m1
    cases hs : s.m_stop with
    | false =>
      rw [thread_synchronizer.lock_running_eq hs hm] at h
      obtain ⟨rfl, rfl⟩ := Prod.mk.inj (Option.some.inj h)
      exact ⟨lnl, by simp [lnu]⟩
    | true =>
      rw [thread_synchronizer.lock_stopped_eq hs hm] at h
      obtain ⟨rfl, rfl⟩ := Prod.mk.inj (Option.some.inj h)
      exact ⟨by simp [unl, lnl], by simp [unu, lnu]⟩

theorem thread_synchronizer.stop_some_counts {t : ThreadId} {s s1 : thread_synchronizer}
    (h : s.stop t = some s1) :
    s1.m_mtx.n_lock = s.m_mtx.n_lock + 1 ∧ s1.m_mtx.n_unlock = s.m_mtx.n_unlock + 1 := by
  cases hm : s.m_mtx.lock t with
  | none => rw [(thread_synchronizer.lock_none hm).2.1] at h; cases h
  | some m1 =>
    obtain ⟨-, -, lnl, lnu⟩ := recursive_mutex.lock_any hm
    obtain ⟨-, unu, unl⟩ := recursive_mutex.unlock_spec t m1
    rw [thread_synchronizer.stop_eq hm] at h
    cases Option.some.inj h
    exact ⟨by simp [unl, lnl], by simp [unu, lnu]⟩

theorem thread_synchronizer.resume_some_counts {t : ThreadId} {s s1 : thread_synchronizer}
    (h : s.resume t = some s1) :
    s1.m_mtx.n_lock = s.m_mtx.n_lock + 1 ∧ s1.m_mtx.n_unlock = s.m_mtx.n_unlock + 1 := by
  cases hm : s.m_mtx.lock t with
  | none => rw [(thread_synchronizer.lock_none hm).2.2] at h; cases h
  | some m1 =>
    obtain ⟨-, -, lnl, lnu⟩ := recursive_mutex.lock_any hm
    obtain ⟨-, unu, unl⟩ := recursive_mutex.unlock_spec t m1
    rw [thread_synchronizer.resume_eq hm] at h
    cases Option.some.inj h
    exact ⟨by simp [unl, lnl], by simp [unu, lnu]⟩

theorem World.balanced_step {t : ThreadId} {op : Op} {w w1 : World} (hb : w.balanced t)
    (hz : World.unlocks_at_zero t op w = false) (hm : World.locks_at_max t op w = false)
    (h : World.step t op w = some w1) : w1.balanced t := by
  obtain ⟨hlc, hnl⟩ := hb
  unfold World.locked_count at hlc
  cases op with
  | lock =>
    simp only [World.step] at h
    cases hl : w.sync.lock t with
    | none => simp [hl] at h
    | some r =>
      obtain ⟨g, s1⟩ := r
      simp only [hl, Option.some.injEq] at h
      subst h
      obtain ⟨-, -, hdep, -, -⟩ :=
        thread_synchronizer.lock_some_spec hl (World.depth_lt_of_not_at_max hm)
      obtain ⟨cnl, cnu⟩ := thread_synchronizer.lock_some_counts hl
      constructor
      · simp only [World.locked_count, List.countP_append, List.countP_cons, List.countP_nil,
          hdep]
        omega
      · show s1.m_mtx.n_lock = s1.m_mtx.n_unlock + s1.m_mtx.depth t
        rw [cnl, cnu, hdep]
        cases g.m_locked <;> simp <;> omega
  | move i =>
    simp only [World.step] at h
    cases hg : w.guards[i]? with
    | none => simp [hg] at h
    | some g0 =>
      simp only [hg, Option.some.injEq] at h
      subst h
      refine ⟨?_, hnl⟩
      have hc := List.countP_set_add hg (fun g : recursive_mutex_lock => g.m_locked)
        (recursive_mutex_lock.move_ctor g0).2
      simp only [World.locked_count, List.countP_append]
      simp only [recursive_mutex_lock.move_ctor] at hc ⊢
      cases hb : g0.m_locked <;> simp [hb, List.countP_cons] at hc ⊢ <;> omega
  | destroy i =>
    simp only [World.step] at h
    cases hg : w.guards[i]? with
    | none => simp [hg] at h
    | some g0 =>
      simp only [hg, Option.some.injEq] at h
      subst h
      have hc := List.countP_eraseIdx_add hg (fun g : recursive_mutex_lock => g.m_locked)
      cases hb : g0.m_locked with
      | false =>
        simp [hb] at hc
        constructor
        · simp only [World.locked_count, recursive_mutex_lock.dtor, hb, Bool.false_eq_true,
            if_false]
          omega
        · simpa [recursive_mutex_lock.dtor, hb] using hnl
      | true =>
        simp [hb] at hc
        have hpos : 1 ≤ w.sync.m_mtx.depth t := by
          simp only [World.unlocks_at_zero, hg, hb, Bool.true_and, decide_eq_false_iff_not] at hz
          omega
        obtain ⟨udep, unu, unl⟩ := recursive_mutex.unlock_spec t w.sync.m_mtx
        constructor
        · simp only [World.locked_count, recursive_mutex_lock.dtor, hb, if_true, udep]
          omega
        · simp only [recursive_mutex_lock.dtor, hb, if_true, udep, unu, unl]
          omega
  | stop =>
    simp only [World.step] at h
    cases hl : w.sync.stop t with
    | none => simp [hl] at h
    | some s1 =>
      simp only [hl, Option.some.injEq] at h
      subst h
      obtain ⟨-, hdep, -, -⟩ :=
        thread_synchronizer.stop_some_spec hl (World.depth_lt_of_not_at_max hm)
      obtain ⟨cnl, cnu⟩ := thread_synchronizer.stop_some_counts hl
      constructor
      · simp only [World.locked_count, hdep]; exact hlc
      · show s1.m_mtx.n_lock = s1.m_mtx.n_unlock + s1.m_mtx.depth t
        rw [cnl, cnu, hdep]; omega
  | resume =>
    simp only [World.step] at h
    cases hl : w.sync.resume t with
    | none => simp [hl] at h
    | some s1 =>
      simp only [hl, Option.some.injEq] at h
      subst h
      obtain ⟨-, hdep, -, -⟩ :=
        thread_synchronizer.resume_some_spec hl (World.depth_lt_of_not_at_max hm)
      obtain ⟨cnl, cnu⟩ := thread_synchronizer.resume_some_counts hl
      constructor
      · simp only [World.locked_count, hdep]; exact hlc
      · show s1.m_mtx.n_lock = s1.m_mtx.n_unlock + s1.m_mtx.depth t
        rw [cnl, cnu, hdep]; omega
  | temp_ctor =>
    simp only [World.step] at h
    by_cases hd : 1 ≤ w.sync.m_mtx.depth t
    · simp only [hd, if_true, Option.some.injEq] at h
      subst h
      obtain ⟨udep, unu, unl⟩ := recursive_mutex.unlock_spec t w.sync.m_mtx
      constructor
      · simp only [World.locked_count, temporary_unlock.ctor, udep]
        omega
      · simp only [temporary_unlock.ctor, udep, unu, unl]
        omega
    · simp [hd] at h
  | temp_dtor =>
    simp only [World.step] at h
    by_cases hd : 1 ≤ w.temps
    · simp only [hd, if_true] at h
      cases hl : temporary_unlock.dtor t w.sync with
      | none => simp [hl] at h
      | some s1 =>
        simp only [hl, Option.some.injEq] at h
        subst h
        simp only [temporary_unlock.dtor] at hl
        cases hm1 : w.sync.m_mtx.lock t with
        | none => simp [hm1] at hl
        | some m1 =>
          simp only [hm1, Option.some.injEq] at hl
          subst hl
          obtain ⟨-, -, ldep, lnl, lnu⟩ :=
            recursive_mutex.lock_spec hm1 (World.depth_lt_of_not_at_max hm)
          constructor
          · simp only [World.locked_count, ldep]
            omega
          · show m1.n_lock = m1.n_unlock + m1.depth t
            rw [lnl, lnu, ldep]; omega
    · simp [hd] at h

theorem World.safe_run_spec {t : ThreadId} (ops : List Op) {w w1 : World}
    (hb : w.balanced t) (hinv : w.inv t) (h : World.safe_run t ops w = some w1) :
    World.strict_run t ops w = some w1 ∧ w1.balanced t ∧ w1.inv t := by
  induction ops generalizing w with
  | nil =>
    simp only [World.safe_run, Option.some.injEq] at h
    subst h; exact ⟨rfl, hb, hinv⟩
  | cons op ops ih =>
    simp only [World.safe_run, World.safe_step] at h
    cases hm : World.locks_at_max t op w with
    | true => simp [hm] at h
    | false =>
      simp only [hm, Bool.false_eq_true, if_false, World.strict_step] at h
      cases hz : World.unlocks_at_zero t op w with
      | true => simp [hz] at h
      | false =>
        simp only [hz, Bool.false_eq_true, if_false] at h
        cases hs : World.step t op w with
        | none => simp [hs] at h
        | some w2 =>
          simp only [hs] at h
          obtain ⟨hr, hb1, hi1⟩ :=
            ih (World.balanced_step hb hz hm hs) (World.inv_step hinv hm hs) h
          refine ⟨?_, hb1, hi1⟩
          simp only [World.strict_run, World.strict_step, hz, Bool.false_eq_true, if_false,
            hs, hr]

/-! ## The backward scans of the path helpers -/

theorem file.scan_back_skip (test : Char → Bool) (p : List Char) (k : Nat) :
    ∀ n, k ≤ n → (∀ i, k ≤ i → i < n → test (p.getD i '\x00') = false) →
      file.scan_back test p n = file.scan_back test p k := by
  intro n
  induction n with
  | zero =>
    intro hk _
    have : k = 0 := by omega
    subst this; rfl
  | succ m ih =>
    intro hk hfalse
    by_cases hkm : k = m + 1
    · subst hkm; rfl
    · have hm : test (p.getD m '\x00') = false := hfalse m (by omega) (by omega)
      simp only [file.scan_back, hm, Bool.false_eq_true, if_false]
      exact ih (by omega) (fun i h1 h2 => hfalse i h1 (by omega))

theorem file.getD_mem {p : List Char} {i : Nat} (h : i < p.length) :
    p.getD i '\x00' ∈ p := by
  rw [List.getD_eq_getElem?_getD, List.getElem?_eq_getElem h]
  exact List.getElem_mem h

theorem file.scan_back_absent (test : Char → Bool) (p : List Char)
    (h : ∀ c ∈ p, test c = false) : file.scan_back test p p.length = none := by
  rw [file.scan_back_skip test p 0 p.length (Nat.zero_le _)
    (fun i _ hi => h _ (file.getD_mem hi))]
  rfl

theorem file.scan_back_last (test : Char → Bool) (a b : List Char) (c : Char)
    (hc : test c = true) (hb : ∀ x ∈ b, test x = false) :
    file.scan_back test (a ++ c :: b) (a ++ c :: b).length = some (a.length + 1) := by
  have hlen : (a ++ c :: b).length = a.length + 1 + b.length := by
    simp only [List.length_append, List.length_cons]; omega
  rw [file.scan_back_skip test (a ++ c :: b) (a.length + 1) _ (by omega)]
  · have hget : (a ++ c :: b).getD a.length '\x00' = c := by
      rw [List.getD_eq_getElem?_getD, List.getElem?_append_right (Nat.le_refl _)]
      simp
    simp only [file.scan_back, hget, hc, if_true]
  · intro i hi hlt
    have hget : (a ++ c :: b).getD i '\x00' = b.getD (i - (a.length + 1)) '\x00' := by
      rw [List.getD_eq_getElem?_getD, List.getD_eq_getElem?_getD,
        List.getElem?_append_right (by omega)]
      have : i - a.length = (i - (a.length + 1)) + 1 := by omega
      rw [this, List.getElem?_cons_succ]
    rw [hget]
    exact hb _ (file.getD_mem (by omega))

/-- Every list either has no element that passes the test, or splits at the last
element that does. -/
theorem file.split_last (test : Char → Bool) (p : List Char) :
    (∀ x ∈ p, test x = false) ∨
      ∃ a c b, p = a ++ c :: b ∧ test c = true ∧ ∀ x ∈ b, test x = false := by
  induction p with
  | nil => exact Or.inl (fun x hx => by cases hx)
  | cons y p ih =>
    rcases ih with hno | ⟨a, c, b, hp, hc, hb⟩
    · cases hy : test y with
      | true => exact Or.inr ⟨[], y, p, rfl, hy, hno⟩
      | false =>
        refine Or.inl (fun x hx => ?_)
        rcases List.mem_cons.mp hx with rfl | hx
        · exact hy
        · exact hno x hx
    · exact Or.inr ⟨y :: a, c, b, by rw [hp]; rfl, hc, hb⟩

theorem file.string_of_c_str_append (a b : List Char) (n : Nat)
    (hnul : ∀ c ∈ a ++ b, c ≠ '\x00') :
    file.string_of_c_str (a ++ b) a.length n = some (b.take n) := by
  have htw : (a ++ b).takeWhile (fun c => c != '\x00') = a ++ b := by
    rw [List.takeWhile_eq_self_iff]
    intro c hc
    simpa using hnul c hc
  simp only [file.string_of_c_str, htw, List.length_append, List.drop_left]
  rw [if_neg (by omega)]

/-- The result is cut out of the part of the path before its first NUL: what
follows a NUL-free `a ++ b` does not matter for the `b.length` chars from
`a.length`. -/
theorem file.string_of_c_str_prefix (a b c : List Char) (hnul : file.no_nul (a ++ b)) :
    file.string_of_c_str (a ++ b ++ c) a.length b.length = some b := by
  have htw : (a ++ b ++ c).takeWhile (fun x => x != '\x00') =
      a ++ b ++ c.takeWhile (fun x => x != '\x00') := by
    rw [List.takeWhile_append_of_pos]
    intro x hx
    simpa using hnul x hx
  simp only [file.string_of_c_str, htw, List.length_append]
  rw [if_neg (by omega), List.append_assoc, List.drop_left, List.take_left]

theorem file.scan_sep_split (d n : List Char) (hd : file.is_dir_prefix d)
    (hn : ∀ c ∈ n, file.is_sep c = false) :
    file.scan_back file.is_sep (d ++ n) (d ++ n).length =
      if d = [] then none else some d.length := by
  rcases hd with rfl | ⟨d0, c, rfl, hc⟩
  · simpa using file.scan_back_absent file.is_sep n hn
  · have hne : d0 ++ [c] ≠ [] := by simp
    rw [if_neg hne]
    have hp : d0 ++ [c] ++ n = d0 ++ c :: n := by simp
    rw [hp, file.scan_back_last file.is_sep d0 n c hc hn]
    simp

theorem file.get_filename_split (d n : List Char) (hd : file.is_dir_prefix d)
    (hn : ∀ c ∈ n, file.is_sep c = false) (hnul : file.no_nul (d ++ n)) :
    file.get_filename (d ++ n) = some n := by
  by_cases h0 : (d ++ n).length = 0
  · obtain ⟨rfl, rfl⟩ := List.append_eq_nil.mp (List.length_eq_zero.mp h0)
    rfl
  · unfold file.get_filename file.get_filename_n
    simp only [h0, if_false, file.scan_sep_split d n hd hn]
    have hstart : (match (if d = [] then none else some d.length : Option Nat) with
        | some i => i
        | none => 0) = d.length := by
      by_cases hdn : d = []
      · simp [hdn]
      · simp [hdn]
    rw [hstart, file.string_of_c_str_append d n _ hnul]
    simp

theorem file.get_stem_split_dot (d s e : List Char) (hd : file.is_dir_prefix d)
    (hs : ∀ c ∈ s, file.is_sep c = false) (he : ∀ c ∈ e, file.is_sep c = false)
    (hdot : ∀ c ∈ e, file.is_dot c = false) (hnul : file.no_nul (d ++ s)) :
    file.get_stem (d ++ (s ++ '.' :: e)) = some s := by
  have hn : ∀ c ∈ s ++ '.' :: e, file.is_sep c = false := by
    intro c hc
    rcases List.mem_append.mp hc with h | h
    · exact hs c h
    · rcases List.mem_cons.mp h with rfl | h
      · rfl
      · exact he c h
  have hsep := file.scan_sep_split d (s ++ '.' :: e) hd hn
  have hp : d ++ (s ++ '.' :: e) = (d ++ s) ++ '.' :: e := by simp
  have hscan : file.scan_back file.is_dot (d ++ (s ++ '.' :: e))
      (d ++ (s ++ '.' :: e)).length = some ((d ++ s).length + 1) := by
    rw [hp]
    exact file.scan_back_last file.is_dot (d ++ s) e '.' rfl hdot
  have h0 : ¬ (d ++ (s ++ '.' :: e)).length = 0 := by simp
  unfold file.get_stem file.get_stem_n
  simp only [h0, if_false, hsep, hscan]
  have hstart : (match (if d = [] then none else some d.length : Option Nat) with
      | some i => i
      | none => 0) = d.length := by
    by_cases hdn : d = []
    · simp [hdn]
    · simp [hdn]
  rw [hstart]
  have hl1 : (d ++ s).length = d.length + s.length := List.length_append d s
  simp only [Nat.add_sub_cancel]
  rw [if_neg (by omega)]
  have hn1 : (d ++ s).length - d.length = s.length := by omega
  have hp1 : d ++ (s ++ '.' :: e) = d ++ s ++ '.' :: e := by simp
  rw [hn1, hp1]
  exact file.string_of_c_str_prefix d s ('.' :: e) hnul

theorem file.get_stem_split_no_dot (d n : List Char) (hd : file.is_dir_prefix d)
    (hn : ∀ c ∈ n, file.is_sep c = false) (hdot : ∀ c ∈ n, file.is_dot c = false)
    (hnul : file.no_nul (d ++ n)) :
    file.get_stem (d ++ n) = some n := by
  by_cases h0 : (d ++ n).length = 0
  · obtain ⟨rfl, rfl⟩ := List.append_eq_nil.mp (List.length_eq_zero.mp h0)
    rfl
  · unfold file.get_stem file.get_stem_n
    have hsep := file.scan_sep_split d n hd hn
    have hstart : (match (if d = [] then none else some d.length : Option Nat) with
        | some i => i
        | none => 0) = d.length := by
      by_cases hdn : d = []
      · simp [hdn]
      · simp [hdn]
    simp only [h0, if_false, hsep, hstart]
    have hlen : (d ++ n).length = d.length + n.length := List.length_append d n
    rcases file.split_last file.is_dot d with hno | ⟨a, c, b, hda, hc, hb⟩
    · have hall : ∀ x ∈ d ++ n, file.is_dot x = false := by
        intro x hx
        rcases List.mem_append.mp hx with h | h
        · exact hno x h
        · exact hdot x h
      rw [file.scan_back_absent file.is_dot (d ++ n) hall]
      simp only
      rw [if_neg (by omega), file.string_of_c_str_append d n _ hnul]
      simp [hlen]
    · have hp : d ++ n = a ++ c :: (b ++ n) := by rw [hda]; simp
      have hbn : ∀ x ∈ b ++ n, file.is_dot x = false := by
        intro x hx
        rcases List.mem_append.mp hx with h | h
        · exact hb x h
        · exact hdot x h
      have hscan : file.scan_back file.is_dot (d ++ n) (d ++ n).length =
          some (a.length + 1) := by
        rw [hp]
        exact file.scan_back_last file.is_dot a (b ++ n) c hc hbn
      have hdl : d.length = a.length + 1 + b.length := by
        rw [hda]; simp; omega
      rw [hscan]
      simp only [Nat.add_sub_cancel]
      rw [if_pos (by omega), file.string_of_c_str_append d n _ hnul]
      simp [hlen]

/-! ## Claims -/

/-- C1, as the claim states it, fails at the maximum recursion count: on a Running
gate that thread 0 holds at depth 4294967295, `thread_synchronizer::lock()`
returns a truthy guard, but the native lock has failed with `EAGAIN` and the depth
is still 4294967295, not one more. -/
theorem lock_running_at_max_counterexample :
    thread_synchronizer.lock 0
        { m_mtx := { owner := some 0, count := 4294967295, n_lock := 4294967295,
                     n_unlock := 0 },
          m_stop := false } =
      some ({ m_locked := true },
        { m_mtx := { owner := some 0, count := 4294967295, n_lock := 4294967296,
                     n_unlock := 0 },
          m_stop := false }) ∧
    recursive_mutex.depth
        { owner := some 0, count := 4294967295, n_lock := 4294967296, n_unlock := 0 } 0 =
      4294967295 ∧
    ¬ (∀ (t : ThreadId) (s : thread_synchronizer) (d : Nat), s.m_stop = false →
        s.m_mtx.available t → s.m_mtx.depth t = d →
        ∃ g s1, s.lock t = some (g, s1) ∧ g.toBool = true ∧ s1.m_mtx.depth t = d + 1 ∧
          s1.m_stop = false) := by
  refine ⟨by decide, by decide, ?_⟩
  intro h
  obtain ⟨g, s1, hl, -, hdep, -⟩ := h 0
    { m_mtx := { owner := some 0, count := 4294967295, n_lock := 4294967295, n_unlock := 0 },
      m_stop := false } 4294967295 rfl (by decide) (by decide)
  have hl0 : thread_synchronizer.lock 0
      { m_mtx := { owner := some 0, count := 4294967295, n_lock := 4294967295,
                   n_unlock := 0 },
        m_stop := false } =
      some ({ m_locked := true },
        { m_mtx := { owner := some 0, count := 4294967295, n_lock := 4294967296,
                     n_unlock := 0 },
          m_stop := false }) := by decide
  rw [hl0] at hl
  obtain ⟨-, rfl⟩ := Prod.mk.inj (Option.some.inj hl)
  exact absurd hdep (by decide)

/-- C1, amended: on a Running gate (`m_stop = false`, which the freshly constructed
gate is) whose mutex the calling thread `t` can take and holds at a depth `d` below
the maximum recursion count, `thread_synchronizer::lock()` returns, the guard it
returns converts to `true`, the mutex is then owned by `t` at depth `d + 1` after
exactly one more native lock and no native unlock, and `m_stop` is still `false`. -/
theorem lock_running_truthy (t : ThreadId) (s : thread_synchronizer) (d : Nat)
    (hrun : s.m_stop = false) (hav : s.m_mtx.available t) (hd : s.m_mtx.depth t = d)
    (hlt : d < max_recursion) :
    (thread_synchronizer.init.m_stop = false ∧
      thread_synchronizer.init.m_mtx.available t ∧
      thread_synchronizer.init.m_mtx.depth t = 0) ∧
    ∃ g s1, s.lock t = some (g, s1) ∧ g.toBool = true ∧
      s1.m_mtx.depth t = d + 1 ∧ s1.m_mtx.owner = some t ∧ s1.m_stop = false ∧
      s1.m_mtx.n_lock = s.m_mtx.n_lock + 1 ∧ s1.m_mtx.n_unlock = s.m_mtx.n_unlock := by
  refine ⟨⟨rfl, Or.inl rfl, rfl⟩, ?_⟩
  obtain ⟨m1, hm1⟩ := recursive_mutex.lock_some_of_available hav
  obtain ⟨ho, -, hdep, hnl, hnu⟩ := recursive_mutex.lock_spec hm1 (by rw [hd]; exact hlt)
  refine ⟨_, _, thread_synchronizer.lock_running_eq hrun hm1, rfl, ?_, ho, hrun, hnl, hnu⟩
  simp [hdep, hd]

/-- Witness of C1 amended: the fresh gate, thread 0, depth 0. -/
theorem lock_running_truthy_witness :
    thread_synchronizer.init.lock 0 =
        some ({ m_locked := true },
          { m_mtx := { owner := some 0, count := 1, n_lock := 1, n_unlock := 0 },
            m_stop := false }) ∧
    ((thread_synchronizer.init.m_stop = false ∧
      thread_synchronizer.init.m_mtx.available 0 ∧
      thread_synchronizer.init.m_mtx.depth 0 = 0) ∧
    ∃ g s1, thread_synchronizer.init.lock 0 = some (g, s1) ∧ g.toBool = true ∧
      s1.m_mtx.depth 0 = 0 + 1 ∧ s1.m_mtx.owner = some 0 ∧ s1.m_stop = false ∧
      s1.m_mtx.n_lock = thread_synchronizer.init.m_mtx.n_lock + 1 ∧
      s1.m_mtx.n_unlock = thread_synchronizer.init.m_mtx.n_unlock) :=
  ⟨by decide,
    lock_running_truthy 0 thread_synchronizer.init 0 rfl (by decide) (by decide) (by decide)⟩

/-- C2, as the claim states it, fails at the maximum recursion count: on a Stopped
gate that thread 0 holds at depth 4294967295, the native lock of
`thread_synchronizer::lock()` fails with `EAGAIN` and the `unlock()` that follows
still releases one level, so the caller is left at depth 4294967294, not at the
depth it had. -/
theorem lock_stopped_at_max_counterexample :
    thread_synchronizer.lock 0
        { m_mtx := { owner := some 0, count := 4294967295, n_lock := 4294967295,
                     n_unlock := 0 },
          m_stop := true } =
      some ({ m_locked := false },
        { m_mtx := { owner := some 0, count := 4294967294, n_lock := 4294967296,
                     n_unlock := 1 },
          m_stop := true }) ∧
    recursive_mutex.depth
        { owner := some 0, count := 4294967294, n_lock := 4294967296, n_unlock := 1 } 0 ≠
      recursive_mutex.depth
        { owner := some 0, count := 4294967295, n_lock := 4294967295, n_unlock := 0 } 0 ∧
    ¬ (∀ (t : ThreadId) (s : thread_synchronizer) (d : Nat), s.m_stop = true →
        s.m_mtx.available t → s.m_mtx.depth t = d →
        ∃ g s1, s.lock t = some (g, s1) ∧ g.toBool = false ∧ s1.m_mtx.depth t = d) := by
  refine ⟨by decide, by decide, ?_⟩
  intro h
  obtain ⟨g, s1, hl, -, hdep⟩ := h 0
    { m_mtx := { owner := some 0, count := 4294967295, n_lock := 4294967295, n_unlock := 0 },
      m_stop := true } 4294967295 rfl (by decide) (by decide)
  have hl0 : thread_synchronizer.lock 0
      { m_mtx := { owner := some 0, count := 4294967295, n_lock := 4294967295,
                   n_unlock := 0 },
        m_stop := true } =
      some ({ m_locked := false },
        { m_mtx := { owner := some 0, count := 4294967294, n_lock := 4294967296,
                     n_unlock := 1 },
          m_stop := true }) := by decide
  rw [hl0] at hl
  obtain ⟨-, rfl⟩ := Prod.mk.inj (Option.some.inj hl)
  exact absurd hdep (by decide)

/-- C2, amended: on a Stopped gate (`m_stop = true`) whose mutex the calling thread
`t` can take and holds at a depth `d` below the maximum recursion count,
`thread_synchronizer::lock()` returns, the guard it returns converts to `false`,
the mutex has been locked once and unlocked once and is back at depth `d` (on a
well-formed mutex the owner and the count are what they were), `m_stop` is still
`true`, and the destructor of the returned guard leaves every mutex state as it
is: no further unlock. -/
theorem lock_stopped_falsy (t : ThreadId) (s : thread_synchronizer) (d : Nat)
    (hstop : s.m_stop = true) (hav : s.m_mtx.available t) (hd : s.m_mtx.depth t = d)
    (hlt : d < max_recursion) :
    ∃ g s1, s.lock t = some (g, s1) ∧ g.toBool = false ∧
      s1.m_mtx.depth t = d ∧ s1.m_stop = true ∧
      s1.m_mtx.n_lock = s.m_mtx.n_lock + 1 ∧ s1.m_mtx.n_unlock = s.m_mtx.n_unlock + 1 ∧
      (∀ m2, g.dtor t m2 = m2) ∧
      (s.m_mtx.wf → s1.m_mtx.owner = s.m_mtx.owner ∧ s1.m_mtx.count = s.m_mtx.count) := by
  obtain ⟨m1, hm1⟩ := recursive_mutex.lock_some_of_available hav
  have hlt1 : s.m_mtx.depth t < max_recursion := by rw [hd]; exact hlt
  obtain ⟨-, -, hdep, hnl, hnu⟩ := recursive_mutex.lock_spec hm1 hlt1
  obtain ⟨udep, unu, unl⟩ := recursive_mutex.unlock_spec t m1
  refine ⟨_, _, thread_synchronizer.lock_stopped_eq hstop hm1, rfl, ?_, hstop, ?_, ?_,
    fun _ => rfl, ?_⟩
  · simp [udep, hdep, hd]
  · simp [unl, hnl]
  · simp [unu, hnu]
  · intro hwf
    obtain ⟨h1, h2, -⟩ := recursive_mutex.unlock_lock_frame hwf hm1 hlt1
    exact ⟨h1, h2⟩

/-- Witness of C2 amended: a Stopped gate that thread 3 holds at depth 2. -/
theorem lock_stopped_falsy_witness :
    thread_synchronizer.lock 3
        { m_mtx := { owner := some 3, count := 2, n_lock := 2, n_unlock := 0 },
          m_stop := true } =
      some ({ m_locked := false },
        { m_mtx := { owner := some 3, count := 2, n_lock := 3, n_unlock := 1 },
          m_stop := true }) ∧
    ∃ g s1, thread_synchronizer.lock 3
        { m_mtx := { owner := some 3, count := 2, n_lock := 2, n_unlock := 0 },
          m_stop := true } = some (g, s1) ∧ g.toBool = false ∧
      s1.m_mtx.depth 3 = 2 ∧ s1.m_stop = true ∧
      s1.m_mtx.n_lock = 2 + 1 ∧ s1.m_mtx.n_unlock = 0 + 1 ∧
      (∀ m2, g.dtor 3 m2 = m2) ∧
      (recursive_mutex.wf { owner := some 3, count := 2, n_lock := 2, n_unlock := 0 } →
        s1.m_mtx.owner = some 3 ∧ s1.m_mtx.count = 2) :=
  ⟨by decide,
    lock_stopped_falsy 3
      { m_mtx := { owner := some 3, count := 2, n_lock := 2, n_unlock := 0 }, m_stop := true }
      2 rfl (by decide) (by decide) (by decide)⟩

/-- C3, as the claim states it, fails at the maximum recursion count: on a gate
that thread 0 holds at depth 4294967295, the native lock of `stop()` fails with
`EAGAIN` and its guard still unlocks, so after `stop()` and `resume()` the depth is
4294967294, not the depth of the gate before. -/
theorem stop_resume_at_max_counterexample :
    thread_synchronizer.stop 0
        { m_mtx := { owner := some 0, count := 4294967295, n_lock := 4294967295,
                     n_unlock := 0 },
          m_stop := false } =
      some { m_mtx := { owner := some 0, count := 4294967294, n_lock := 4294967296,
                        n_unlock := 1 },
             m_stop := true } ∧
    thread_synchronizer.resume 0
        { m_mtx := { owner := some 0, count := 4294967294, n_lock := 4294967296,
                     n_unlock := 1 },
          m_stop := true } =
      some { m_mtx := { owner := some 0, count := 4294967294, n_lock := 4294967297,
                        n_unlock := 2 },
             m_stop := false } ∧
    recursive_mutex.depth
        { owner := some 0, count := 4294967294, n_lock := 4294967297, n_unlock := 2 } 0 ≠
      recursive_mutex.depth
        { owner := some 0, count := 4294967295, n_lock := 4294967295, n_unlock := 0 } 0 ∧
    ¬ (∀ (t : ThreadId) (s : thread_synchronizer), s.m_mtx.available t →
        ∃ s1 s2, s.stop t = some s1 ∧ s1.resume t = some s2 ∧ s2.m_stop = false ∧
          s2.m_mtx.depth t = s.m_mtx.depth t) := by
  refine ⟨by decide, by decide, by decide, ?_⟩
  intro h
  obtain ⟨s1, s2, h1, h2, -, hdep⟩ := h 0
    { m_mtx := { owner := some 0, count := 4294967295, n_lock := 4294967295, n_unlock := 0 },
      m_stop := false } (by decide)
  have e1 : thread_synchronizer.stop 0
      { m_mtx := { owner := some 0, count := 4294967295, n_lock := 4294967295,
                   n_unlock := 0 },
        m_stop := false } =
      some { m_mtx := { owner := some 0, count := 4294967294, n_lock := 4294967296,
                        n_unlock := 1 },
             m_stop := true } := by decide
  rw [e1] at h1
  cases Option.some.inj h1
  have e2 : thread_synchronizer.resume 0
      { m_mtx := { owner := some 0, count := 4294967294, n_lock := 4294967296,
                   n_unlock := 1 },
        m_stop := true } =
      some { m_mtx := { owner := some 0, count := 4294967294, n_lock := 4294967297,
                        n_unlock := 2 },
             m_stop := false } := by decide
  rw [e2] at h2
  cases Option.some.inj h2
  exact absurd hdep (by decide)

/-- C3, amended: on every gate whose mutex the thread `a` that calls `stop()` and
`resume()` and the thread `b` that calls `lock()` can both take (`a = b` allowed),
with `b` at a depth `d` below the maximum recursion count: `stop()` then `resume()`
return and leave `m_stop = false` and `b` at depth `d`; the next `lock()` returns a
truthy guard at depth `d + 1`, with the same guard, flag, owner and count as
`lock()` on the same gate with `m_stop = false` (never stopped); a `lock()` issued
between the `stop()` and the `resume()` returns a falsy guard, and after it
`resume()` and `lock()` still give a truthy guard at depth `d + 1`. -/
theorem stop_resume_restores_running (a b : ThreadId) (s : thread_synchronizer) (d : Nat)
    (ha : s.m_mtx.available a) (hb : s.m_mtx.available b) (hd : s.m_mtx.depth b = d)
    (hlt : d < max_recursion) :
    ∃ s1 s2, s.stop a = some s1 ∧ s1.m_stop = true ∧ s1.resume a = some s2 ∧
      s2.m_stop = false ∧ s2.m_mtx.depth b = d ∧
      (∃ g s3 s0, s2.lock b = some (g, s3) ∧ g.toBool = true ∧
        thread_synchronizer.lock b { s with m_stop := false } = some (g, s0) ∧
        s3.m_mtx.depth b = d + 1 ∧ s3.m_stop = s0.m_stop ∧
        s3.m_mtx.owner = s0.m_mtx.owner ∧ s3.m_mtx.count = s0.m_mtx.count) ∧
      (∃ g1 sb, s1.lock b = some (g1, sb) ∧ g1.toBool = false ∧ sb.m_mtx.depth b = d ∧
        ∃ s2b, sb.resume a = some s2b ∧ s2b.m_stop = false ∧
          ∃ g2 s3b, s2b.lock b = some (g2, s3b) ∧ g2.toBool = true ∧
            s3b.m_mtx.depth b = d + 1) := by
  have hltb : s.m_mtx.depth b < max_recursion := by rw [hd]; exact hlt
  obtain ⟨s1, hs1, st1, a1, b1, d1, -⟩ := thread_synchronizer.stop_frame ha hb
    (recursive_mutex.depth_lt_of_available ha hb hltb)
  have hltb1 : s1.m_mtx.depth b < max_recursion := by rw [d1]; exact hltb
  obtain ⟨s2, hs2, st2, a2, b2, d2, -⟩ := thread_synchronizer.resume_frame a1 b1
    (recursive_mutex.depth_lt_of_available a1 b1 hltb1)
  have hltb2 : s2.m_mtx.depth b < max_recursion := by rw [d2]; exact hltb1
  refine ⟨s1, s2, hs1, st1, hs2, st2, by rw [d2, d1, hd], ?_, ?_⟩
  · obtain ⟨s3, hs3, st3, o3, c3, dp3⟩ :=
      thread_synchronizer.lock_running_spec st2 b2 hltb2
    have hb0 : (thread_synchronizer.mk s.m_mtx false).m_mtx.available b := hb
    obtain ⟨s0, hs0, st0, o0, c0, -⟩ :=
      thread_synchronizer.lock_running_spec (s := thread_synchronizer.mk s.m_mtx false) rfl
        hb0 hltb
    refine ⟨_, s3, s0, hs3, rfl, hs0, ?_, ?_, ?_, ?_⟩
    · rw [dp3, d2, d1, hd]
    · rw [st3, st0]
    · rw [o3, o0]
    · rw [c3, c0, d2, d1]
  · obtain ⟨sb, hsb, stb, bb, ab, db⟩ :=
      thread_synchronizer.lock_stopped_frame st1 b1 a1 hltb1
    obtain ⟨sbb, hsbb, -, -, -, dbb⟩ :=
      thread_synchronizer.lock_stopped_frame st1 b1 b1 hltb1
    rw [hsb] at hsbb
    have hEq : sb = sbb := (Prod.mk.inj (Option.some.inj hsbb)).2
    subst hEq
    have hltbb : sb.m_mtx.depth b < max_recursion := by rw [dbb]; exact hltb1
    obtain ⟨s2b, hs2b, st2b, a2b, b2b, d2b, -⟩ := thread_synchronizer.resume_frame ab bb
      (recursive_mutex.depth_lt_of_available ab bb hltbb)
    obtain ⟨s3b, hs3b, -, -, -, dp3b⟩ :=
      thread_synchronizer.lock_running_spec st2b b2b (by rw [d2b]; exact hltbb)
    refine ⟨_, sb, hsb, rfl, by rw [dbb, d1, hd], s2b, hs2b, st2b, _, s3b, hs3b, rfl, ?_⟩
    rw [dp3b, d2b, dbb, d1, hd]

/-- Witness of C3 amended: thread 1 stops and resumes a free gate, thread 2 locks
it. -/
theorem stop_resume_restores_running_witness :
    thread_synchronizer.init.m_mtx.available 1 ∧ thread_synchronizer.init.m_mtx.available 2 ∧
    thread_synchronizer.init.m_mtx.depth 2 = 0 ∧
    ∃ s1 s2, thread_synchronizer.init.stop 1 = some s1 ∧ s1.m_stop = true ∧
      s1.resume 1 = some s2 ∧ s2.m_stop = false ∧ s2.m_mtx.depth 2 = 0 ∧
      (∃ g s3 s0, s2.lock 2 = some (g, s3) ∧ g.toBool = true ∧
        thread_synchronizer.lock 2 { thread_synchronizer.init with m_stop := false } =
          some (g, s0) ∧
        s3.m_mtx.depth 2 = 0 + 1 ∧ s3.m_stop = s0.m_stop ∧
        s3.m_mtx.owner = s0.m_mtx.owner ∧ s3.m_mtx.count = s0.m_mtx.count) ∧
      (∃ g1 sb, s1.lock 2 = some (g1, sb) ∧ g1.toBool = false ∧ sb.m_mtx.depth 2 = 0 ∧
        ∃ s2b, sb.resume 1 = some s2b ∧ s2b.m_stop = false ∧
          ∃ g2 s3b, s2b.lock 2 = some (g2, s3b) ∧ g2.toBool = true ∧
            s3b.m_mtx.depth 2 = 0 + 1) :=
  ⟨by decide, by decide, by decide,
    stop_resume_restores_running 1 2 thread_synchronizer.init 0 (by decide) (by decide)
      (by decide) (by decide)⟩

/-- C4, as the claim states it, fails beyond the maximum recursion count: after
4294967296 nested `lock()` calls by thread 0 on the fresh gate, all of which return
a truthy guard, the depth is 4294967295, since the last native lock failed with
`EAGAIN`; and after 4294967295 of the 4294967296 guards are destroyed the depth is
0 and the mutex is free for another thread while one truthy guard is alive. -/
theorem nested_lock_overflow_counterexample :
    ∃ w w1, World.run 0 (List.replicate 4294967296 Op.lock)
        { sync := thread_synchronizer.init, guards := [], temps := 0 } = some w ∧
      w.guards.length = 4294967296 ∧ (∀ g ∈ w.guards, g.toBool = true) ∧
      w.sync.m_mtx.depth 0 = 4294967295 ∧
      World.run 0 (List.replicate 4294967295 (Op.destroy 0)) w = some w1 ∧
      w1.guards.length = 1 ∧ (∀ g ∈ w1.guards, g.toBool = true) ∧
      w1.sync.m_mtx.depth 0 = 0 ∧ w1.sync.m_mtx.owner = none := by
  have hmax : max_recursion = 4294967295 := rfl
  obtain ⟨w, hw, hov⟩ := World.overfull_lock_n (t := 0) 4294967296
    (World.overfull_start (s := thread_synchronizer.init) rfl rfl)
  obtain ⟨w1, hw1, hov1⟩ := World.overfull_destroy_first 4294967295 hov (by omega)
  refine ⟨w, w1, World.run_of_strict_run _ hw, ?_, hov.2.1, ?_, hw1, ?_, hov1.2.1, ?_, ?_⟩
  · have := hov.1
    omega
  · have := hov.2.2.2.2.1
    omega
  · have := hov1.1
    omega
  · have := hov1.2.2.2.2.1
    omega
  · exact hov1.2.2.2.2.2 (by omega)

/-- C4, amended: on a Running gate whose mutex is free, `N` nested `lock()` calls
by thread `t`, with `N` at most the maximum recursion count, all return (none
blocks), the `N` guards they return are all truthy and `t` holds the mutex at depth
`N`; destroying any `k` of those guards, in any order, leaves the depth at `N - k`:
while `k < N` the mutex is still owned by `t` and a lock by any other thread
blocks, and it can be taken by another thread exactly when `k = N`. -/
theorem nested_lock_reentrant (t : ThreadId) (s : thread_synchronizer) (N : Nat)
    (hrun : s.m_stop = false) (hfree : s.m_mtx.owner = none) (hN : N ≤ max_recursion) :
    ∃ w, World.run t (List.replicate N Op.lock) { sync := s, guards := [], temps := 0 } =
        some w ∧
      w.guards.length = N ∧ (∀ g ∈ w.guards, g.toBool = true) ∧
      w.sync.m_mtx.depth t = N ∧ (1 ≤ N → w.sync.m_mtx.owner = some t) ∧
      ∀ idxs : List Nat, (∀ j i, idxs[j]? = some i → i < N - j) →
        ∃ w1, World.run t (idxs.map Op.destroy) w = some w1 ∧
          w1.guards.length = N - idxs.length ∧
          w1.sync.m_mtx.depth t = N - idxs.length ∧
          (idxs.length < N → w1.sync.m_mtx.owner = some t) ∧
          ∀ t1, t1 ≠ t → ((w1.sync.m_mtx.lock t1).isSome = true ↔ idxs.length = N) := by
  obtain ⟨w, hw, hn⟩ := World.overfull_lock_n (t := t) N (World.overfull_start hrun hfree)
  have hk : 0 + N - max_recursion = 0 := by omega
  rw [hk, Nat.zero_add] at hn
  have hdepN : w.sync.m_mtx.depth t = N := by
    have := hn.2.2.2.2.1
    omega
  refine ⟨w, World.run_of_strict_run _ hw, hn.1, hn.2.1, hdepN, ?_, ?_⟩
  · intro hN1
    exact (recursive_mutex.owner_of_depth_pos (by rw [hdepN]; exact hN1)).1
  · intro idxs hidx
    obtain ⟨w1, hw1, hlen1, -, -, -, hdep0, hfree0⟩ :=
      World.overfull_destroy_list idxs hn hidx
    have hdep1 : w1.sync.m_mtx.depth t = N - idxs.length := by omega
    have hfree1 : N - idxs.length = 0 → w1.sync.m_mtx.owner = none := fun h0 =>
      hfree0 (by omega)
    have hle : idxs.length ≤ N := by
      rcases Nat.eq_zero_or_pos idxs.length with h | h
      · omega
      · have hlt : idxs.length - 1 < idxs.length := by omega
        have := hidx (idxs.length - 1) _ (List.getElem?_eq_getElem hlt)
        omega
    have hown : idxs.length < N → w1.sync.m_mtx.owner = some t := fun hlt =>
      (recursive_mutex.owner_of_depth_pos (by rw [hdep1]; omega)).1
    refine ⟨w1, hw1, hlen1, hdep1, hown, ?_⟩
    intro t1 ht1
    constructor
    · intro hsome
      by_contra hne
      have ho := hown (by omega)
      have ht : ¬ t = t1 := fun h => ht1 h.symm
      simp [recursive_mutex.lock, ho, ht] at hsome
    · intro hk
      have ho := hfree1 (by omega)
      simp [recursive_mutex.lock, ho]

/-- Witness of C4 amended: three nested locks on the fresh gate by thread 5. -/
theorem nested_lock_reentrant_witness :
    World.run 5 [Op.lock, Op.lock, Op.lock, Op.destroy 1, Op.destroy 1] World.init =
        some { sync := { m_mtx := { owner := some 5, count := 1, n_lock := 3, n_unlock := 2 },
                         m_stop := false },
               guards := [{ m_locked := true }], temps := 0 } ∧
    ∃ w, World.run 5 (List.replicate 3 Op.lock)
        { sync := thread_synchronizer.init, guards := [], temps := 0 } = some w ∧
      w.guards.length = 3 ∧ (∀ g ∈ w.guards, g.toBool = true) ∧
      w.sync.m_mtx.depth 5 = 3 ∧ (1 ≤ 3 → w.sync.m_mtx.owner = some 5) ∧
      ∀ idxs : List Nat, (∀ j i, idxs[j]? = some i → i < 3 - j) →
        ∃ w1, World.run 5 (idxs.map Op.destroy) w = some w1 ∧
          w1.guards.length = 3 - idxs.length ∧
          w1.sync.m_mtx.depth 5 = 3 - idxs.length ∧
          (idxs.length < 3 → w1.sync.m_mtx.owner = some 5) ∧
          ∀ t1, t1 ≠ 5 → ((w1.sync.m_mtx.lock t1).isSome = true ↔ idxs.length = 3) :=
  ⟨by decide, nested_lock_reentrant 5 thread_synchronizer.init 3 rfl rfl (by decide)⟩

/-- C5: on a gate whose mutex the calling thread `t` holds at depth `d >= 1`,
constructing a `temporary_unlock` makes exactly one native unlock and no lock and
leaves the depth at `d - 1`: the mutex is still owned by `t` when `d > 1` and is
free when `d = 1`; destroying it then returns after exactly one native lock and no
unlock and leaves the depth at `d`; after construction and destruction the owner,
the count and `m_stop` are what they were before. -/
theorem temporary_unlock_round_trip (t : ThreadId) (s : thread_synchronizer) (d : Nat)
    (hd : 1 ≤ d) (hdep : s.m_mtx.depth t = d) :
    (temporary_unlock.ctor t s).m_mtx.n_unlock = s.m_mtx.n_unlock + 1 ∧
    (temporary_unlock.ctor t s).m_mtx.n_lock = s.m_mtx.n_lock ∧
    (temporary_unlock.ctor t s).m_mtx.depth t = d - 1 ∧
    (temporary_unlock.ctor t s).m_stop = s.m_stop ∧
    (2 ≤ d → (temporary_unlock.ctor t s).m_mtx.owner = some t) ∧
    (d = 1 → (temporary_unlock.ctor t s).m_mtx.owner = none) ∧
    ∃ s2, temporary_unlock.dtor t (temporary_unlock.ctor t s) = some s2 ∧
      s2.m_mtx.n_lock = s.m_mtx.n_lock + 1 ∧
      s2.m_mtx.n_unlock = s.m_mtx.n_unlock + 1 ∧
      s2.m_mtx.depth t = d ∧ s2.m_stop = s.m_stop ∧
      s2.m_mtx.owner = s.m_mtx.owner ∧ s2.m_mtx.count = s.m_mtx.count := by
  have hpos : 1 ≤ s.m_mtx.depth t := by omega
  obtain ⟨ho, hc⟩ := recursive_mutex.owner_of_depth_pos hpos
  obtain ⟨udep, unu, unl⟩ := recursive_mutex.unlock_spec t s.m_mtx
  obtain ⟨h1, h2⟩ := recursive_mutex.unlock_owner hpos
  have hav : (s.m_mtx.unlock t).available t := by
    rcases Nat.lt_or_ge (s.m_mtx.depth t) 2 with h | h
    · exact Or.inl (h1 (by omega))
    · exact Or.inr (h2 h)
  obtain ⟨m2, hm2⟩ := recursive_mutex.lock_some_of_available hav
  have hle := recursive_mutex.depth_le_max s.m_mtx t
  obtain ⟨lo, lc, ldep, lnl, lnu⟩ :=
    recursive_mutex.lock_spec hm2 (by rw [udep]; omega)
  refine ⟨unu, unl, by rw [← hdep]; exact udep, rfl, fun h => h2 (by omega),
    fun h => h1 (by omega), ?_⟩
  refine ⟨{ s with m_mtx := m2 }, ?_, ?_, ?_, ?_, rfl, ?_, ?_⟩
  · simp [temporary_unlock.dtor, temporary_unlock.ctor, hm2]
  · show m2.n_lock = s.m_mtx.n_lock + 1
    rw [lnl, unl]
  · show m2.n_unlock = s.m_mtx.n_unlock + 1
    rw [lnu, unu]
  · show m2.depth t = d
    rw [ldep, udep]; omega
  · show m2.owner = s.m_mtx.owner
    rw [lo, ho]
  · show m2.count = s.m_mtx.count
    rw [lc, udep, hc]; omega

/-- Witness of C5: thread 4 holds the gate at depth 2. -/
theorem temporary_unlock_round_trip_witness :
    1 ≤ 2 ∧
    recursive_mutex.depth { owner := some 4, count := 2, n_lock := 2, n_unlock := 0 } 4 = 2 ∧
    temporary_unlock.dtor 4 (temporary_unlock.ctor 4
        { m_mtx := { owner := some 4, count := 2, n_lock := 2, n_unlock := 0 },
          m_stop := false }) =
      some { m_mtx := { owner := some 4, count := 2, n_lock := 3, n_unlock := 1 },
             m_stop := false } ∧
    (temporary_unlock.ctor 4
        { m_mtx := { owner := some 4, count := 2, n_lock := 2, n_unlock := 0 },
          m_stop := false }).m_mtx.depth 4 = 2 - 1 :=
  ⟨by decide, by decide, by decide,
    (temporary_unlock_round_trip 4
      { m_mtx := { owner := some 4, count := 2, n_lock := 2, n_unlock := 0 }, m_stop := false }
      2 (by decide) (by decide)).2.2.1⟩

/-- C6: move-constructing a guard from `g` makes no call on the mutex (the gate of
a world in which guard `i` is moved is unchanged, and one more guard is alive),
leaves `g` falsy so that its destructor leaves every mutex state as it is, and
gives the new guard the truthiness `g` had; when `g` was truthy the destructor of
the new guard is exactly one native unlock, and destroying both guards, in either
order, makes one native unlock in all and lowers the depth by one. -/
theorem move_transfers_ownership (t : ThreadId) (g : recursive_mutex_lock)
    (m : recursive_mutex) :
    (recursive_mutex_lock.move_ctor g).2.toBool = false ∧
    (recursive_mutex_lock.move_ctor g).2.dtor t m = m ∧
    (recursive_mutex_lock.move_ctor g).1.toBool = g.toBool ∧
    (∀ (w w1 : World) (i : Nat), World.step t (Op.move i) w = some w1 →
      w1.sync = w.sync ∧ w1.temps = w.temps ∧ w1.guards.length = w.guards.length + 1 ∧
      w1.locked_count = w.locked_count) ∧
    (g.toBool = true →
      (recursive_mutex_lock.move_ctor g).1.dtor t m = m.unlock t ∧
      ((recursive_mutex_lock.move_ctor g).1.dtor t m).n_unlock = m.n_unlock + 1 ∧
      ((recursive_mutex_lock.move_ctor g).1.dtor t
        ((recursive_mutex_lock.move_ctor g).2.dtor t m)).n_unlock = m.n_unlock + 1 ∧
      ((recursive_mutex_lock.move_ctor g).1.dtor t
        ((recursive_mutex_lock.move_ctor g).2.dtor t m)).depth t = m.depth t - 1 ∧
      (recursive_mutex_lock.move_ctor g).2.dtor t
        ((recursive_mutex_lock.move_ctor g).1.dtor t m) =
      (recursive_mutex_lock.move_ctor g).1.dtor t
        ((recursive_mutex_lock.move_ctor g).2.dtor t m)) := by
  obtain ⟨udep, unu, -⟩ := recursive_mutex.unlock_spec t m
  refine ⟨rfl, rfl, rfl, ?_, ?_⟩
  · intro w w1 i h
    simp only [World.step] at h
    cases hg : w.guards[i]? with
    | none => simp [hg] at h
    | some g0 =>
      simp only [hg, Option.some.injEq] at h
      subst h
      have hlt : i < w.guards.length := (List.getElem?_eq_some.mp hg).1
      refine ⟨rfl, rfl, by simp, ?_⟩
      have hc := List.countP_set_add hg (fun g : recursive_mutex_lock => g.m_locked)
        (recursive_mutex_lock.move_ctor g0).2
      simp only [World.locked_count, List.countP_append]
      simp only [recursive_mutex_lock.move_ctor] at hc ⊢
      cases hb : g0.m_locked <;> simp [hb, List.countP_cons] at hc ⊢ <;> omega
  · intro hg
    have hg1 : g.m_locked = true := hg
    simp [recursive_mutex_lock.move_ctor, recursive_mutex_lock.dtor, hg1, unu, udep]

/-- Witness of C6: a truthy guard of thread 1 on a mutex held at depth 2. -/
theorem move_transfers_ownership_witness :
    recursive_mutex_lock.toBool { m_locked := true } = true ∧
    (recursive_mutex_lock.move_ctor { m_locked := true }).1.dtor 1
        ((recursive_mutex_lock.move_ctor { m_locked := true }).2.dtor 1
          { owner := some 1, count := 2, n_lock := 2, n_unlock := 0 }) =
      { owner := some 1, count := 1, n_lock := 2, n_unlock := 1 } ∧
    (recursive_mutex_lock.move_ctor { m_locked := true }).2.toBool = false ∧
    (recursive_mutex_lock.move_ctor { m_locked := true }).1.dtor 1
        { owner := some 1, count := 2, n_lock := 2, n_unlock := 0 } =
      recursive_mutex.unlock 1 { owner := some 1, count := 2, n_lock := 2, n_unlock := 0 } :=
  ⟨rfl, by decide,
    (move_transfers_ownership 1 { m_locked := true }
      { owner := some 1, count := 2, n_lock := 2, n_unlock := 0 }).1,
    ((move_transfers_ownership 1 { m_locked := true }
      { owner := some 1, count := 2, n_lock := 2, n_unlock := 0 }).2.2.2.2 rfl).1⟩

/-- C7, as the claim states it, fails at the maximum recursion count: on a mutex
that thread 0 holds at depth 4294967295 the constructor of a guard sets
`m_locked = true` although its native lock has failed with `EAGAIN` and the depth
is still 4294967295, and `unlock()` then lowers the depth to 4294967294, one below
the depth before the guard was constructed. -/
theorem early_unlock_at_max_counterexample :
    recursive_mutex_lock.ctor 0
        { owner := some 0, count := 4294967295, n_lock := 4294967295, n_unlock := 0 } =
      some ({ m_locked := true },
        { owner := some 0, count := 4294967295, n_lock := 4294967296, n_unlock := 0 }) ∧
    recursive_mutex_lock.unlock 0 { m_locked := true }
        { owner := some 0, count := 4294967295, n_lock := 4294967296, n_unlock := 0 } =
      ({ m_locked := false },
        { owner := some 0, count := 4294967294, n_lock := 4294967296, n_unlock := 1 }) ∧
    recursive_mutex.depth
        { owner := some 0, count := 4294967294, n_lock := 4294967296, n_unlock := 1 } 0 ≠
      recursive_mutex.depth
        { owner := some 0, count := 4294967295, n_lock := 4294967295, n_unlock := 0 } 0 ∧
    ¬ (∀ (t : ThreadId) (m : recursive_mutex) (d : Nat), m.available t → m.depth t = d →
        ∃ g m1, recursive_mutex_lock.ctor t m = some (g, m1) ∧ g.m_locked = true ∧
          m1.depth t = d + 1) := by
  refine ⟨by decide, by decide, by decide, ?_⟩
  intro h
  obtain ⟨g, m1, hc, -, hdep⟩ := h 0
    { owner := some 0, count := 4294967295, n_lock := 4294967295, n_unlock := 0 }
    4294967295 (by decide) (by decide)
  have hc0 : recursive_mutex_lock.ctor 0
      { owner := some 0, count := 4294967295, n_lock := 4294967295, n_unlock := 0 } =
      some ({ m_locked := true },
        { owner := some 0, count := 4294967295, n_lock := 4294967296, n_unlock := 0 }) := by
    decide
  rw [hc0] at hc
  obtain ⟨-, rfl⟩ := Prod.mk.inj (Option.some.inj hc)
  exact absurd hdep (by decide)

/-- C7, amended: constructing a guard on a mutex the thread `t` can take and holds
at a depth `d` below the maximum recursion count returns with `m_locked = true`
and the depth at `d + 1`; an explicit `unlock()` then sets `m_locked = false` and
lowers the depth to `d` at once; the destructor that follows leaves the mutex as it
is, so the depth is still `d`: construct, unlock, destroy makes one native lock and
one native unlock. -/
theorem early_unlock_releases_once (t : ThreadId) (m : recursive_mutex) (d : Nat)
    (hav : m.available t) (hd : m.depth t = d) (hlt : d < max_recursion) :
    ∃ g m1, recursive_mutex_lock.ctor t m = some (g, m1) ∧
      g.m_locked = true ∧ m1.depth t = d + 1 ∧
      (g.unlock t m1).1.m_locked = false ∧ (g.unlock t m1).2.depth t = d ∧
      (g.unlock t m1).1.dtor t (g.unlock t m1).2 = (g.unlock t m1).2 ∧
      ((g.unlock t m1).1.dtor t (g.unlock t m1).2).depth t = d ∧
      ((g.unlock t m1).1.dtor t (g.unlock t m1).2).n_unlock = m.n_unlock + 1 ∧
      ((g.unlock t m1).1.dtor t (g.unlock t m1).2).n_lock = m.n_lock + 1 := by
  obtain ⟨m1, hm1⟩ := recursive_mutex.lock_some_of_available hav
  obtain ⟨-, -, ldep, lnl, lnu⟩ := recursive_mutex.lock_spec hm1 (by rw [hd]; exact hlt)
  obtain ⟨udep, unu, unl⟩ := recursive_mutex.unlock_spec t m1
  have hctor : recursive_mutex_lock.ctor t m = some ({ m_locked := true }, m1) := by
    simp [recursive_mutex_lock.ctor, hm1]
  refine ⟨_, m1, hctor, rfl, by rw [ldep, hd], rfl, ?_, rfl, ?_, ?_, ?_⟩
  · show (m1.unlock t).depth t = d
    rw [udep, ldep, hd]; omega
  · show (m1.unlock t).depth t = d
    rw [udep, ldep, hd]; omega
  · show (m1.unlock t).n_unlock = m.n_unlock + 1
    rw [unu, lnu]
  · show (m1.unlock t).n_lock = m.n_lock + 1
    rw [unl, lnl]

/-- Witness of C7 amended: thread 2 on a mutex it already holds at depth 1. -/
theorem early_unlock_releases_once_witness :
    recursive_mutex.available { owner := some 2, count := 1, n_lock := 1, n_unlock := 0 } 2 ∧
    recursive_mutex.depth { owner := some 2, count := 1, n_lock := 1, n_unlock := 0 } 2 = 1 ∧
    ∃ g m1, recursive_mutex_lock.ctor 2
        { owner := some 2, count := 1, n_lock := 1, n_unlock := 0 } = some (g, m1) ∧
      g.m_locked = true ∧ m1.depth 2 = 1 + 1 ∧
      (g.unlock 2 m1).1.m_locked = false ∧ (g.unlock 2 m1).2.depth 2 = 1 ∧
      (g.unlock 2 m1).1.dtor 2 (g.unlock 2 m1).2 = (g.unlock 2 m1).2 ∧
      ((g.unlock 2 m1).1.dtor 2 (g.unlock 2 m1).2).depth 2 = 1 ∧
      ((g.unlock 2 m1).1.dtor 2 (g.unlock 2 m1).2).n_unlock = 0 + 1 ∧
      ((g.unlock 2 m1).1.dtor 2 (g.unlock 2 m1).2).n_lock = 1 + 1 :=
  ⟨by decide, by decide,
    early_unlock_releases_once 2 { owner := some 2, count := 1, n_lock := 1, n_unlock := 0 } 1
      (by decide) (by decide) (by decide)⟩

/-- C8, as the claim states it, fails: `recursive_mutex_lock::unlock()` on a guard
whose `m_locked` is already `false` still releases the mutex (thread 0 goes from
depth 1 to depth 0 with one more native unlock), and two `unlock()` calls in a row
on a locked guard at depth 2 make two native unlocks and free the mutex, where one
call makes one and leaves depth 1. -/
theorem unlock_not_guarded_counterexample :
    (recursive_mutex_lock.unlock 0 { m_locked := false }
        { owner := some 0, count := 1, n_lock := 1, n_unlock := 0 }).2 =
      { owner := none, count := 0, n_lock := 1, n_unlock := 1 } ∧
    (recursive_mutex_lock.unlock 0 { m_locked := true }
        { owner := some 0, count := 2, n_lock := 2, n_unlock := 0 }) =
      ({ m_locked := false }, { owner := some 0, count := 1, n_lock := 2, n_unlock := 1 }) ∧
    (recursive_mutex_lock.unlock 0 { m_locked := false }
        { owner := some 0, count := 1, n_lock := 2, n_unlock := 1 }) =
      ({ m_locked := false }, { owner := none, count := 0, n_lock := 2, n_unlock := 2 }) ∧
    ¬ (∀ (t : ThreadId) (g : recursive_mutex_lock) (m : recursive_mutex),
        g.m_locked = false → (g.unlock t m).2 = m) := by
  refine ⟨by decide, by decide, by decide, ?_⟩
  intro h
  have := h 0 { m_locked := false } { owner := some 0, count := 1, n_lock := 1, n_unlock := 0 } rfl
  exact absurd this (by decide)

/-- C8, amended: `recursive_mutex_lock::unlock()` does not look at `m_locked`. Every
call makes exactly one native unlock and sets `m_locked = false`, so two calls in a
row make two native unlocks and lower the depth by two; what the flag guards is the
destructor, which after an `unlock()` leaves every mutex state as it is; and the
only caller, `thread_synchronizer::lock()`, makes one native unlock when the gate
is Stopped and none when it is Running, and returns a guard whose `m_locked` is
the negation of `m_stop`. -/
theorem unlock_always_releases (t : ThreadId) (g : recursive_mutex_lock)
    (m : recursive_mutex) :
    (g.unlock t m).2 = m.unlock t ∧ (g.unlock t m).1.m_locked = false ∧
    (g.unlock t m).2.n_unlock = m.n_unlock + 1 ∧
    (g.unlock t m).2.depth t = m.depth t - 1 ∧
    ((g.unlock t m).1.unlock t (g.unlock t m).2).2.n_unlock = m.n_unlock + 2 ∧
    ((g.unlock t m).1.unlock t (g.unlock t m).2).2.depth t = m.depth t - 2 ∧
    (∀ m2, (g.unlock t m).1.dtor t m2 = m2) ∧
    (∀ (s s1 : thread_synchronizer) (g1 : recursive_mutex_lock),
      s.lock t = some (g1, s1) →
        s1.m_mtx.n_unlock = s.m_mtx.n_unlock + (if s.m_stop then 1 else 0) ∧
        g1.m_locked = !s.m_stop) := by
  obtain ⟨udep, unu, -⟩ := recursive_mutex.unlock_spec t m
  obtain ⟨udep2, unu2, -⟩ := recursive_mutex.unlock_spec t (m.unlock t)
  refine ⟨rfl, rfl, unu, udep, ?_, ?_, fun _ => rfl, ?_⟩
  · show ((m.unlock t).unlock t).n_unlock = m.n_unlock + 2
    rw [unu2, unu]
  · show ((m.unlock t).unlock t).depth t = m.depth t - 2
    rw [udep2, udep]; omega
  · intro s s1 g1 h
    cases hm : s.m_mtx.lock t with
    | none => rw [(thread_synchronizer.lock_none hm).1] at h; cases h
    | some m1 =>
      obtain ⟨-, -, -, lnu⟩ := recursive_mutex.lock_any hm
      cases hs : s.m_stop with
      | false =>
        rw [thread_synchronizer.lock_running_eq hs hm] at h
        obtain ⟨rfl, rfl⟩ := Prod.mk.inj (Option.some.inj h)
        simp [lnu]
      | true =>
        rw [thread_synchronizer.lock_stopped_eq hs hm] at h
        obtain ⟨rfl, rfl⟩ := Prod.mk.inj (Option.some.inj h)
        simp [(recursive_mutex.unlock_spec t m1).2.1, lnu]

/-- Witness of C8 amended: `lock()` by thread 0 on a Stopped free gate. -/
theorem unlock_always_releases_witness :
    thread_synchronizer.lock 0 { m_mtx := recursive_mutex.init, m_stop := true } =
      some ({ m_locked := false },
        { m_mtx := { owner := none, count := 0, n_lock := 1, n_unlock := 1 },
          m_stop := true }) ∧
    (({ m_mtx := { owner := none, count := 0, n_lock := 1, n_unlock := 1 },
        m_stop := true } : thread_synchronizer).m_mtx.n_unlock =
      (({ m_mtx := recursive_mutex.init, m_stop := true } : thread_synchronizer).m_mtx.n_unlock +
        (if ({ m_mtx := recursive_mutex.init, m_stop := true } : thread_synchronizer).m_stop
          then 1 else 0)) ∧
     ({ m_locked := false } : recursive_mutex_lock).m_locked =
      !({ m_mtx := recursive_mutex.init, m_stop := true } : thread_synchronizer).m_stop) :=
  ⟨by decide,
    (unlock_always_releases 0 { m_locked := true } recursive_mutex.init).2.2.2.2.2.2.2
      { m_mtx := recursive_mutex.init, m_stop := true }
      { m_mtx := { owner := none, count := 0, n_lock := 1, n_unlock := 1 }, m_stop := true }
      { m_locked := false } (by decide)⟩

/-- C9, as the claim states it, fails: from the fresh gate, thread 0 calls `lock()`
and then constructs a `temporary_unlock` (it holds the lock at depth 1, so the
precondition is met); the guard is alive with `m_locked = true` while the mutex is
free, depth 0. It also fails with no `temporary_unlock` at all: after 4294967296
`lock()` calls, the last of which gets a truthy guard from a native lock that
failed with `EAGAIN`, and the destruction of 4294967295 of the guards, one guard
with `m_locked = true` is alive and the depth is 0. -/
theorem locked_guard_without_lock_counterexample :
    World.run 0 [Op.lock, Op.temp_ctor] World.init =
        some { sync := { m_mtx := { owner := none, count := 0, n_lock := 1, n_unlock := 1 },
                         m_stop := false },
               guards := [{ m_locked := true }], temps := 1 } ∧
    (∃ w, World.run 0
        (List.replicate 4294967296 Op.lock ++ List.replicate 4294967295 (Op.destroy 0))
        World.init = some w ∧
      w.temps = 0 ∧ w.guards.length = 1 ∧ (∀ g ∈ w.guards, g.m_locked = true) ∧
      w.sync.m_mtx.depth 0 = 0) ∧
    ¬ (∀ (t : ThreadId) (ops : List Op) (w : World), World.run t ops World.init = some w →
        ∀ g ∈ w.guards, g.m_locked = true → 1 ≤ w.sync.m_mtx.depth t) := by
  refine ⟨by decide, ?_, ?_⟩
  · have hmax : max_recursion = 4294967295 := rfl
    obtain ⟨w, hw, hov⟩ := World.overfull_lock_n (t := 0) 4294967296
      (World.overfull_start (s := thread_synchronizer.init) rfl rfl)
    obtain ⟨w1, hw1, hov1⟩ := World.overfull_destroy_first 4294967295 hov (by omega)
    have hrun : World.run 0 (List.replicate 4294967296 Op.lock) World.init = some w :=
      World.run_of_strict_run _ hw
    refine ⟨w1, ?_, hov1.2.2.2.1, ?_, hov1.2.1, ?_⟩
    · rw [World.run_append, hrun]
      exact hw1
    · have := hov1.1
      omega
    · have := hov1.2.2.2.2.1
      omega
  intro h
  have h1 := h 0 [Op.lock, Op.temp_ctor]
    { sync := { m_mtx := { owner := none, count := 0, n_lock := 1, n_unlock := 1 },
                m_stop := false },
      guards := [{ m_locked := true }], temps := 1 }
    (by decide) { m_locked := true } (by simp) rfl
  exact absurd h1 (by decide)

/-- C9, amended: in every state thread `t` reaches from the fresh gate through
`lock()`, guard move and destruction, `stop()`, `resume()`, and `temporary_unlock`
construction (at depth >= 1) and destruction, with no lock made at the maximum
recursion count, the live guards with `m_locked = true` are at most the depth plus
the live `temporary_unlock` objects; so in every such state with no live
`temporary_unlock`, a live guard with `m_locked = true` implies that `t` owns the
mutex at depth >= 1. -/
theorem locked_guard_holds_lock (t : ThreadId) (ops : List Op) (w : World)
    (h : World.bounded_run t ops World.init = some w) :
    w.locked_count ≤ w.sync.m_mtx.depth t + w.temps ∧
    (w.temps = 0 → ∀ g ∈ w.guards, g.m_locked = true →
      1 ≤ w.sync.m_mtx.depth t ∧ w.sync.m_mtx.owner = some t) := by
  obtain ⟨-, -, -, hbal⟩ := World.bounded_run_spec ops (World.inv_init t) h
  refine ⟨hbal, ?_⟩
  intro h0 g hg hlk
  have hpos : 0 < w.locked_count := by
    unfold World.locked_count
    exact List.countP_pos_iff.mpr ⟨g, hg, hlk⟩
  have hd : 1 ≤ w.sync.m_mtx.depth t := by omega
  exact ⟨hd, (recursive_mutex.owner_of_depth_pos hd).1⟩

/-- Witness of C9 amended: two locks, a `temporary_unlock` scope, a move and a
destruction by thread 0. -/
theorem locked_guard_holds_lock_witness :
    World.bounded_run 0
        [Op.lock, Op.lock, Op.temp_ctor, Op.temp_dtor, Op.move 0, Op.destroy 1]
        World.init =
      some { sync := { m_mtx := { owner := some 0, count := 1, n_lock := 3, n_unlock := 2 },
                       m_stop := false },
             guards := [{ m_locked := false }, { m_locked := true }], temps := 0 } ∧
    World.locked_count
        { sync := { m_mtx := { owner := some 0, count := 1, n_lock := 3, n_unlock := 2 },
                    m_stop := false },
          guards := [{ m_locked := false }, { m_locked := true }], temps := 0 } ≤
      recursive_mutex.depth { owner := some 0, count := 1, n_lock := 3, n_unlock := 2 } 0 + 0 :=
  ⟨by decide,
    (locked_guard_holds_lock 0
      [Op.lock, Op.lock, Op.temp_ctor, Op.temp_dtor, Op.move 0, Op.destroy 1]
      { sync := { m_mtx := { owner := some 0, count := 1, n_lock := 3, n_unlock := 2 },
                  m_stop := false },
        guards := [{ m_locked := false }, { m_locked := true }], temps := 0 }
      (by decide)).1⟩

/-- C10, as the claim states it, fails at the maximum recursion count: when thread
0 holds the gate at depth 4294967295 through a truthy guard, the native lock of
`stop()` fails with `EAGAIN` and its guard still unlocks, so `stop()` lowers the
depth to 4294967294; `resume()` does the same. -/
theorem stop_at_max_counterexample :
    World.step 0 Op.stop
        { sync := { m_mtx := { owner := some 0, count := 4294967295, n_lock := 4294967295,
                               n_unlock := 0 },
                    m_stop := false },
          guards := [{ m_locked := true }], temps := 0 } =
      some { sync := { m_mtx := { owner := some 0, count := 4294967294,
                                  n_lock := 4294967296, n_unlock := 1 },
                       m_stop := true },
             guards := [{ m_locked := true }], temps := 0 } ∧
    World.step 0 Op.resume
        { sync := { m_mtx := { owner := some 0, count := 4294967295, n_lock := 4294967295,
                               n_unlock := 0 },
                    m_stop := true },
          guards := [{ m_locked := true }], temps := 0 } =
      some { sync := { m_mtx := { owner := some 0, count := 4294967294,
                                  n_lock := 4294967296, n_unlock := 1 },
                       m_stop := false },
             guards := [{ m_locked := true }], temps := 0 } ∧
    recursive_mutex.depth
        { owner := some 0, count := 4294967294, n_lock := 4294967296, n_unlock := 1 } 0 ≠
      recursive_mutex.depth
        { owner := some 0, count := 4294967295, n_lock := 4294967295, n_unlock := 0 } 0 ∧
    ¬ (∀ (t : ThreadId) (w : World), w.sync.m_mtx.available t →
        ∃ w1, World.step t Op.stop w = some w1 ∧ w1.sync.m_stop = true ∧
          w1.sync.m_mtx.depth t = w.sync.m_mtx.depth t) := by
  refine ⟨by decide, by decide, by decide, ?_⟩
  intro h
  obtain ⟨w1, hs, -, hdep⟩ := h 0
    { sync := { m_mtx := { owner := some 0, count := 4294967295, n_lock := 4294967295,
                           n_unlock := 0 },
                m_stop := false },
      guards := [{ m_locked := true }], temps := 0 } (by decide)
  have hs0 : World.step 0 Op.stop
      { sync := { m_mtx := { owner := some 0, count := 4294967295, n_lock := 4294967295,
                             n_unlock := 0 },
                  m_stop := false },
        guards := [{ m_locked := true }], temps := 0 } =
      some { sync := { m_mtx := { owner := some 0, count := 4294967294,
                                  n_lock := 4294967296, n_unlock := 1 },
                       m_stop := true },
             guards := [{ m_locked := true }], temps := 0 } := by decide
  rw [hs0] at hs
  cases Option.some.inj hs
  exact absurd hdep (by decide)

/-- C10, amended: in every world whose mutex the calling thread `t` can take and
holds below the maximum recursion count, `stop()` returns and sets `m_stop = true`,
after one native lock and one native unlock that leave the depth of `t` as it was
(and, on a well-formed mutex, the owner and the count); the live guards, hence each
`m_locked` flag, and the live `temporary_unlock` objects are untouched, so a truthy
guard is still truthy and `t` still holds the mutex; on a gate that was already
Stopped the flag does not change either. `resume()` has the same frame with
`m_stop = false`. -/
theorem stop_resume_frame (t : ThreadId) (w : World) (hav : w.sync.m_mtx.available t)
    (hlt : w.sync.m_mtx.depth t < max_recursion) :
    (∃ w1, World.step t Op.stop w = some w1 ∧ w1.sync.m_stop = true ∧
      w1.sync.m_mtx.depth t = w.sync.m_mtx.depth t ∧
      w1.guards = w.guards ∧ w1.temps = w.temps ∧
      w1.sync.m_mtx.n_lock = w.sync.m_mtx.n_lock + 1 ∧
      w1.sync.m_mtx.n_unlock = w.sync.m_mtx.n_unlock + 1 ∧
      (w.sync.m_mtx.wf → w1.sync.m_mtx.owner = w.sync.m_mtx.owner ∧
        w1.sync.m_mtx.count = w.sync.m_mtx.count) ∧
      (w.sync.m_stop = true → w1.sync.m_stop = w.sync.m_stop)) ∧
    (∃ w1, World.step t Op.resume w = some w1 ∧ w1.sync.m_stop = false ∧
      w1.sync.m_mtx.depth t = w.sync.m_mtx.depth t ∧
      w1.guards = w.guards ∧ w1.temps = w.temps ∧
      w1.sync.m_mtx.n_lock = w.sync.m_mtx.n_lock + 1 ∧
      w1.sync.m_mtx.n_unlock = w.sync.m_mtx.n_unlock + 1 ∧
      (w.sync.m_mtx.wf → w1.sync.m_mtx.owner = w.sync.m_mtx.owner ∧
        w1.sync.m_mtx.count = w.sync.m_mtx.count) ∧
      (w.sync.m_stop = false → w1.sync.m_stop = w.sync.m_stop)) := by
  constructor
  · obtain ⟨s1, hs1, st1, -, -, hdep, hnl, hnu, hfr⟩ :=
      thread_synchronizer.stop_frame hav hav hlt
    have hstep : World.step t Op.stop w = some { w with sync := s1 } := by
      simp [World.step, hs1]
    exact ⟨_, hstep, st1, hdep, rfl, rfl, hnl, hnu,
      fun hwf => ⟨(hfr hwf).1, (hfr hwf).2.1⟩, fun h => by rw [h]; exact st1⟩
  · obtain ⟨s1, hs1, st1, -, -, hdep, hnl, hnu, hfr⟩ :=
      thread_synchronizer.resume_frame hav hav hlt
    have hstep : World.step t Op.resume w = some { w with sync := s1 } := by
      simp [World.step, hs1]
    exact ⟨_, hstep, st1, hdep, rfl, rfl, hnl, hnu,
      fun hwf => ⟨(hfr hwf).1, (hfr hwf).2.1⟩, fun h => by rw [h]; exact st1⟩

/-- Witness of C10 amended: thread 6 holds a Running gate through one truthy
guard. -/
theorem stop_resume_frame_witness :
    recursive_mutex.available { owner := some 6, count := 1, n_lock := 1, n_unlock := 0 } 6 ∧
    World.step 6 Op.stop
        { sync := { m_mtx := { owner := some 6, count := 1, n_lock := 1, n_unlock := 0 },
                    m_stop := false },
          guards := [{ m_locked := true }], temps := 0 } =
      some { sync := { m_mtx := { owner := some 6, count := 1, n_lock := 2, n_unlock := 1 },
                       m_stop := true },
             guards := [{ m_locked := true }], temps := 0 } ∧
    ∃ w1, World.step 6 Op.resume
        { sync := { m_mtx := { owner := some 6, count := 1, n_lock := 1, n_unlock := 0 },
                    m_stop := false },
          guards := [{ m_locked := true }], temps := 0 } = some w1 ∧
      w1.sync.m_stop = false ∧ w1.sync.m_mtx.depth 6 = 1 ∧
      w1.guards = [{ m_locked := true }] ∧ w1.temps = 0 :=
  ⟨by decide, by decide,
    (stop_resume_frame 6
      { sync := { m_mtx := { owner := some 6, count := 1, n_lock := 1, n_unlock := 0 },
                  m_stop := false },
        guards := [{ m_locked := true }], temps := 0 } (by decide) (by decide)).2.imp
      fun _ h => ⟨h.1, h.2.1, h.2.2.1, h.2.2.2.1, h.2.2.2.2.1⟩⟩

/-- C11: any number of threads (two in particular) each repeat: construct a guard
on the shared mutex, read the shared counter, write it back plus one, destroy the
guard. In every state that any interleaving of their statements reaches, at most
one thread is between the construction and the destruction of its guard; the
counter equals the number of increments made, and equals the number requested
once every thread has finished (no lost update); a thread about to construct its
guard is blocked exactly while another thread is inside, and as long as some
thread has work left some thread can make a statement. On the guard itself: while
thread `a` holds a free mutex through a guard, the constructor of a guard by
another thread `b` blocks, and it returns after the destructor of the guard of `a`
or after its `unlock()`. -/
theorem mutual_exclusion_no_lost_update (todo : List Nat) (sched : List ThreadId)
    (s : Shared) (h : Shared.run sched (Shared.start todo) = some s) :
    (∀ (i j : Nat) (wi wj : Worker), s.workers[i]? = some wi → s.workers[j]? = some wj →
      wi.pc ≠ 0 → wj.pc ≠ 0 → i = j) ∧
    s.counter = (s.workers.map Worker.done).sum ∧
    ((∀ w ∈ s.workers, w.pc = 0 ∧ w.todo = 0) → s.counter = todo.sum) ∧
    (∀ (j : Nat) (wj : Worker), s.workers[j]? = some wj → wj.pc = 0 → wj.todo ≠ 0 →
      (Shared.step j s = none ↔
        ∃ (i : Nat) (wi : Worker), i ≠ j ∧ s.workers[i]? = some wi ∧ wi.pc ≠ 0)) ∧
    ((∃ w ∈ s.workers, w.pc ≠ 0 ∨ w.todo ≠ 0) → ∃ i s1, Shared.step i s = some s1) ∧
    (∀ (a b : ThreadId) (m m1 : recursive_mutex) (g : recursive_mutex_lock),
      a ≠ b → m.owner = none → recursive_mutex_lock.ctor a m = some (g, m1) →
      recursive_mutex_lock.ctor b m1 = none ∧
      (recursive_mutex_lock.ctor b (g.dtor a m1)).isSome = true ∧
      (recursive_mutex_lock.ctor b (g.unlock a m1).2).isSome = true) := by
  have hinv := Shared.inv_reachable sched (Shared.inv_start todo) h
  refine ⟨?_, hinv.1, ?_, ?_, Shared.progress hinv, ?_⟩
  · intro i j wi wj hi hj hpi hpj
    have h1 := ((hinv.2.2.1 i wi hi).2.1 hpi).1
    have h2 := ((hinv.2.2.1 j wj hj).2.1 hpj).1
    rw [h1] at h2
    exact Option.some.inj h2
  · intro hfin
    rw [hinv.1, ← Shared.sum_done_of_finished s.workers hfin]
    exact hinv.2.1
  · intro j wj hj hpc htodo
    exact Shared.step_blocked_iff hinv hj hpc htodo
  · intro a b m m1 g hab hfree hct
    obtain ⟨hg, hl⟩ := recursive_mutex_lock.ctor_some hct
    have hdep0 : m.depth a = 0 := by simp [recursive_mutex.depth, hfree]
    obtain ⟨mo, mc, mdep, -⟩ :=
      recursive_mutex.lock_spec hl (by rw [hdep0]; exact max_recursion_pos)
    have hdep : m1.depth a = 1 := by rw [mdep, hdep0]
    have hrel : (m1.unlock a).owner = none :=
      (recursive_mutex.unlock_owner (by omega)).1 hdep
    refine ⟨recursive_mutex_lock.ctor_none_iff.mpr ⟨a, mo, hab⟩, ?_, ?_⟩
    · have hav : (g.dtor a m1).available b := by
        simp only [recursive_mutex_lock.dtor, hg, if_true]
        exact Or.inl hrel
      obtain ⟨m2, hm2⟩ := recursive_mutex.lock_some_of_available hav
      rw [recursive_mutex_lock.ctor_of_lock hm2]
      rfl
    · have hav : (g.unlock a m1).2.available b := Or.inl hrel
      obtain ⟨m2, hm2⟩ := recursive_mutex.lock_some_of_available hav
      rw [recursive_mutex_lock.ctor_of_lock hm2]
      rfl

/-- Witness of C11: two threads, one increment each; thread 1 cannot enter while
thread 0 is inside, and after both have run the counter is 2. -/
theorem mutual_exclusion_no_lost_update_witness :
    Shared.run [0, 1] (Shared.start [1, 1]) = none ∧
    Shared.run [0, 0, 0, 0, 1, 1, 1, 1] (Shared.start [1, 1]) =
      some { mtx := { owner := none, count := 0, n_lock := 2, n_unlock := 2 },
             counter := 2,
             workers := [{ pc := 0, reg := 0, guard := { m_locked := true }, todo := 0, done := 1 },
                         { pc := 0, reg := 1, guard := { m_locked := true }, todo := 0, done := 1 }] } ∧
    Shared.counter
        { mtx := { owner := none, count := 0, n_lock := 2, n_unlock := 2 },
          counter := 2,
          workers := [{ pc := 0, reg := 0, guard := { m_locked := true }, todo := 0, done := 1 },
                      { pc := 0, reg := 1, guard := { m_locked := true }, todo := 0, done := 1 }] } =
      [1, 1].sum :=
  ⟨by decide, by decide,
    (mutual_exclusion_no_lost_update [1, 1] [0, 0, 0, 0, 1, 1, 1, 1]
      { mtx := { owner := none, count := 0, n_lock := 2, n_unlock := 2 },
        counter := 2,
        workers := [{ pc := 0, reg := 0, guard := { m_locked := true }, todo := 0, done := 1 },
                    { pc := 0, reg := 1, guard := { m_locked := true }, todo := 0, done := 1 }] }
      (by decide)).2.2.1 (by decide)⟩

/-- C14, as the claim states it, fails beyond the maximum recursion count: 4294967296
nested `lock()` calls by thread 0 on the fresh gate make no unlock at all, and
leave 4294967296 live guards with `m_locked = true`, no `temporary_unlock`, and the
mutex at depth 4294967295, since the last native lock failed with `EAGAIN`. -/
theorem gate_balance_overflow_counterexample :
    ∃ w, World.strict_run 0 (List.replicate 4294967296 Op.lock) World.init = some w ∧
      w.locked_count = 4294967296 ∧ w.temps = 0 ∧ w.sync.m_mtx.depth 0 = 4294967295 ∧
      w.sync.m_mtx.depth 0 ≠ w.locked_count - w.temps := by
  have hmax : max_recursion = 4294967295 := rfl
  obtain ⟨w, hw, hov⟩ := World.overfull_lock_n (t := 0) 4294967296
    (World.overfull_start (s := thread_synchronizer.init) rfl rfl)
  have hlc : w.locked_count = 4294967296 := by
    rw [World.locked_count_of_all_locked hov.2.1]
    have := hov.1
    omega
  have hdep : w.sync.m_mtx.depth 0 = 4294967295 := by
    have := hov.2.2.2.2.1
    omega
  have htemps : w.temps = 0 := hov.2.2.2.1
  refine ⟨w, hw, hlc, htemps, hdep, ?_⟩
  rw [hlc, htemps, hdep]
  decide

/-- C14, amended: in every state thread `t` reaches from the fresh gate through
`lock()`, guard move, guard destruction, `stop()`, `resume()`, and
`temporary_unlock` construction and destruction, with no unlock made at depth 0 and
no lock made at the maximum recursion count, the depth of the mutex is the number
of live guards with `m_locked = true` minus the number of live `temporary_unlock`
objects (which is at most that number of guards), and the native locks made are
the native unlocks made plus the depth; so once no guard and no `temporary_unlock`
is alive the depth is 0, the mutex is free, and as many native unlocks as native
locks were made. -/
theorem gate_balance (t : ThreadId) (ops : List Op) (w : World)
    (h : World.safe_run t ops World.init = some w) :
    w.sync.m_mtx.depth t = w.locked_count - w.temps ∧ w.temps ≤ w.locked_count ∧
    w.sync.m_mtx.n_lock = w.sync.m_mtx.n_unlock + w.sync.m_mtx.depth t ∧
    (w.guards = [] → w.temps = 0 →
      w.sync.m_mtx.depth t = 0 ∧ w.sync.m_mtx.owner = none ∧
      w.sync.m_mtx.n_lock = w.sync.m_mtx.n_unlock) := by
  have hb0 : World.init.balanced t := ⟨rfl, rfl⟩
  obtain ⟨-, ⟨hlc, hnl⟩, hwf, hav, -⟩ := World.safe_run_spec ops hb0 (World.inv_init t) h
  refine ⟨by omega, by omega, hnl, ?_⟩
  intro hg ht
  have hd : w.sync.m_mtx.depth t = 0 := by
    have : w.locked_count = 0 := by simp [World.locked_count, hg]
    omega
  refine ⟨hd, ?_, by omega⟩
  rcases hav with ho | ho
  · exact ho
  · have hc : w.sync.m_mtx.count = 0 := by
      simpa [recursive_mutex.depth, ho] using hd
    exact hwf.mpr hc

/-- Witness of C14 amended: thread 0 nests two locks, opens and closes a `temporary_unlock`
scope around a `stop()`, moves a guard and destroys all three guards. -/
theorem gate_balance_witness :
    World.safe_run 0
        [Op.lock, Op.lock, Op.temp_ctor, Op.stop, Op.temp_dtor, Op.move 0,
          Op.destroy 0, Op.destroy 0, Op.destroy 0] World.init =
      some { sync := { m_mtx := { owner := none, count := 0, n_lock := 4, n_unlock := 4 },
                       m_stop := true },
             guards := [], temps := 0 } ∧
    World.safe_run 0 [Op.lock, Op.temp_ctor, Op.destroy 0] World.init = none ∧
    recursive_mutex.depth { owner := none, count := 0, n_lock := 4, n_unlock := 4 } 0 =
      World.locked_count
          { sync := { m_mtx := { owner := none, count := 0, n_lock := 4, n_unlock := 4 },
                      m_stop := true },
            guards := [], temps := 0 } - 0 :=
  ⟨by decide, by decide,
    (gate_balance 0
      [Op.lock, Op.lock, Op.temp_ctor, Op.stop, Op.temp_dtor, Op.move 0,
        Op.destroy 0, Op.destroy 0, Op.destroy 0]
      { sync := { m_mtx := { owner := none, count := 0, n_lock := 4, n_unlock := 4 },
                  m_stop := true },
        guards := [], temps := 0 }
      (by decide)).1⟩

/-- C12, as the claim states it, fails on a name with an embedded NUL: for the
name `a\0b` (no `/`, backslash or `.`) and the extension `t`, with the empty
directory prefix, `get_stem` returns `a` for `a\0b.t` and for `a\0b`, because the
result is cut out of the C string at `path`, which ends at the first NUL. -/
theorem get_stem_nul_counterexample :
    file.get_stem ['a', '\x00', 'b', '.', 't'] = some ['a'] ∧
    file.get_stem ['a', '\x00', 'b'] = some ['a'] ∧
    ¬ (∀ d s e : List Char, file.is_dir_prefix d →
        (∀ c ∈ s, c ≠ '/' ∧ c ≠ '\\' ∧ c ≠ '.') → (∀ c ∈ e, c ≠ '/' ∧ c ≠ '\\' ∧ c ≠ '.') →
        file.get_stem (d ++ (s ++ '.' :: e)) = some s ∧ file.get_stem (d ++ s) = some s) := by
  refine ⟨by decide, by decide, ?_⟩
  intro h
  have h1 := (h [] ['a', '\x00', 'b'] ['t'] (Or.inl rfl) (by decide) (by decide)).2
  exact absurd h1 (by decide)

/-- C12, amended: for every directory prefix `d` that is empty or ends in `/` or
backslash, every name `s` and every extension `e` that contain no `/`, backslash
or `.`, with no NUL in `d` and `s` (the extension may hold any other `char`, NUL
included): `get_stem(d ++ s ++ "." ++ e)` returns `s` and `get_stem(d ++ s)`
returns `s`. -/
theorem get_stem_of_name (d s e : List Char) (hd : file.is_dir_prefix d)
    (hs : ∀ c ∈ s, c ≠ '/' ∧ c ≠ '\\' ∧ c ≠ '.')
    (he : ∀ c ∈ e, c ≠ '/' ∧ c ≠ '\\' ∧ c ≠ '.')
    (hnd : file.no_nul d) (hns : file.no_nul s) :
    file.get_stem (d ++ (s ++ '.' :: e)) = some s ∧ file.get_stem (d ++ s) = some s := by
  have sep_of : ∀ c : Char, c ≠ '/' ∧ c ≠ '\\' ∧ c ≠ '.' → file.is_sep c = false := by
    intro c hc
    simp [file.is_sep, hc.1, hc.2.1]
  have dot_of : ∀ c : Char, c ≠ '/' ∧ c ≠ '\\' ∧ c ≠ '.' → file.is_dot c = false := by
    intro c hc
    simp [file.is_dot, hc.2.2]
  constructor
  · refine file.get_stem_split_dot d s e hd (fun c hc => sep_of c (hs c hc))
      (fun c hc => sep_of c (he c hc)) (fun c hc => dot_of c (he c hc)) ?_
    intro c hc
    rcases List.mem_append.mp hc with h | h
    · exact hnd c h
    · exact hns c h
  · refine file.get_stem_split_no_dot d s hd (fun c hc => sep_of c (hs c hc))
      (fun c hc => dot_of c (hs c hc)) ?_
    intro c hc
    rcases List.mem_append.mp hc with h | h
    · exact hnd c h
    · exact hns c h

/-- Witness of C12 amended: the path `.\some/dir\test.txt` of the test, and a NUL
in the extension. -/
theorem get_stem_of_name_witness :
    file.get_stem ".\\some/dir\\test.txt".toList = some "test".toList ∧
    file.get_stem "./test".toList = some "test".toList ∧
    file.get_stem ['t', 'e', 's', 't', '.', 't', '\x00', 'x'] = some "test".toList ∧
    (file.get_stem (".\\some/dir\\".toList ++ ("test".toList ++ '.' :: "txt".toList)) =
        some "test".toList ∧
      file.get_stem (".\\some/dir\\".toList ++ "test".toList) = some "test".toList) :=
  ⟨by decide, by decide, by decide,
    get_stem_of_name ".\\some/dir\\".toList "test".toList "txt".toList
      (Or.inr ⟨".\\some/dir".toList, '\\', by decide, by decide⟩)
      (by decide) (by decide) (by decide) (by decide)⟩

/-- C13, as the claim states it, fails on a path with an embedded NUL: for the name
`a\0b` and the empty prefix `get_filename` returns `a`, and for the prefix `\0/`
and the name `x` the constructor of the result throws `std::out_of_range`, because
the result is cut out of the C string at `path`, which ends at the first NUL. -/
theorem get_filename_nul_counterexample :
    file.get_filename ['a', '\x00', 'b'] = some ['a'] ∧
    file.get_filename ['\x00', '/', 'x'] = none ∧
    ¬ (∀ d n : List Char, file.is_dir_prefix d → (∀ c ∈ n, c ≠ '/' ∧ c ≠ '\\') →
        file.get_filename (d ++ n) = some n) := by
  refine ⟨by decide, by decide, ?_⟩
  intro h
  have h1 := h [] ['a', '\x00', 'b'] (Or.inl rfl) (by decide)
  exact absurd h1 (by decide)

/-- C13, amended: for every directory prefix `d` that is empty or ends in `/` or
backslash and every name `n` that contains neither `/` nor backslash, with no NUL
in `d` and `n`: `get_filename(d ++ n)` returns `n`, that is, what follows the last
separator of the path, and the whole path when it has no separator. -/
theorem get_filename_of_name (d n : List Char) (hd : file.is_dir_prefix d)
    (hn : ∀ c ∈ n, c ≠ '/' ∧ c ≠ '\\') (hnd : file.no_nul d) (hnn : file.no_nul n) :
    file.get_filename (d ++ n) = some n := by
  refine file.get_filename_split d n hd
    (fun c hc => by simp [file.is_sep, (hn c hc).1, (hn c hc).2]) ?_
  intro c hc
  rcases List.mem_append.mp hc with h | h
  · exact hnd c h
  · exact hnn c h

/-- Witness of C13 amended: the paths `.\some/dir\test.txt` and `/some\dir/test`
of the test. -/
theorem get_filename_of_name_witness :
    file.get_filename ".\\some/dir\\test.txt".toList = some "test.txt".toList ∧
    file.get_filename "/some\\dir/test".toList = some "test".toList ∧
    file.get_filename ("/some\\dir/".toList ++ "test".toList) = some "test".toList :=
  ⟨by decide, by decide,
    get_filename_of_name "/some\\dir/".toList "test".toList
      (Or.inr ⟨"/some\\dir".toList, '/', by decide, by decide⟩)
      (by decide) (by decide) (by decide)⟩

/-- C15: every path `p` with no NUL splits as a directory prefix `d` (empty, or
ending in `/` or backslash) followed by a part `f` with no separator, and then
`get_filename(p)` returns `f`, a suffix of `p`, and `get_stem(p)` returns a prefix
`st` of `f`: the whole of `f` when `f` has no `.`, whatever dots `d` has, and
otherwise `f` cut just before its last `.`; so a filename that starts with its
only `.` has the empty stem. -/
theorem stem_filename_relation (p : List Char) (hnul : file.no_nul p) :
    ∃ d f st, p = d ++ f ∧ file.is_dir_prefix d ∧ (∀ c ∈ f, c ≠ '/' ∧ c ≠ '\\') ∧
      file.get_filename p = some f ∧ file.get_stem p = some st ∧
      st <+: f ∧ f <:+ p ∧
      (((∀ c ∈ f, c ≠ '.') ∧ st = f) ∨ ∃ e, (∀ c ∈ e, c ≠ '.') ∧ f = st ++ '.' :: e) ∧
      (∀ e, f = '.' :: e → (∀ c ∈ e, c ≠ '.') → st = []) := by
  have key : ∀ d f : List Char, p = d ++ f → file.is_dir_prefix d →
      (∀ c ∈ f, file.is_sep c = false) →
      ∃ st, file.get_filename p = some f ∧ file.get_stem p = some st ∧
        (((∀ c ∈ f, c ≠ '.') ∧ st = f) ∨ ∃ e, (∀ c ∈ e, c ≠ '.') ∧ f = st ++ '.' :: e) := by
    intro d f hp hd hf
    subst hp
    have hfn := file.get_filename_split d f hd hf hnul
    rcases file.split_last file.is_dot f with hno | ⟨s, c, e, hfs, hc, he⟩
    · refine ⟨f, hfn, file.get_stem_split_no_dot d f hd hf hno hnul, Or.inl ⟨?_, rfl⟩⟩
      intro x hx hxd
      have := hno x hx
      simp [file.is_dot, hxd] at this
    · have hcd : c = '.' := by simpa [file.is_dot] using hc
      subst hcd
      subst hfs
      have hs : ∀ x ∈ s, file.is_sep x = false :=
        fun x hx => hf x (List.mem_append_left _ hx)
      have hes : ∀ x ∈ e, file.is_sep x = false :=
        fun x hx => hf x (List.mem_append_right _ (List.mem_cons_of_mem _ hx))
      have hnds : file.no_nul (d ++ s) := by
        intro x hx
        refine hnul x ?_
        rcases List.mem_append.mp hx with h | h
        · exact List.mem_append_left _ h
        · exact List.mem_append_right _ (List.mem_append_left _ h)
      refine ⟨s, hfn, file.get_stem_split_dot d s e hd hs hes he hnds, Or.inr ⟨e, ?_, rfl⟩⟩
      intro x hx hxd
      have := he x hx
      simp [file.is_dot, hxd] at this
  have fin : ∀ d f : List Char, p = d ++ f → file.is_dir_prefix d →
      (∀ c ∈ f, file.is_sep c = false) →
      ∃ d f st, p = d ++ f ∧ file.is_dir_prefix d ∧ (∀ c ∈ f, c ≠ '/' ∧ c ≠ '\\') ∧
        file.get_filename p = some f ∧ file.get_stem p = some st ∧
        st <+: f ∧ f <:+ p ∧
        (((∀ c ∈ f, c ≠ '.') ∧ st = f) ∨ ∃ e, (∀ c ∈ e, c ≠ '.') ∧ f = st ++ '.' :: e) ∧
        (∀ e, f = '.' :: e → (∀ c ∈ e, c ≠ '.') → st = []) := by
    intro d f hp hd hf
    obtain ⟨st, hfn, hst, hrel⟩ := key d f hp hd hf
    have hsepf : ∀ c ∈ f, c ≠ '/' ∧ c ≠ '\\' := by
      intro c hc
      have := hf c hc
      simpa [file.is_sep] using this
    have hpre : st <+: f := by
      rcases hrel with ⟨-, rfl⟩ | ⟨e, -, hfe⟩
      · exact List.prefix_refl _
      · exact ⟨'.' :: e, hfe.symm⟩
    refine ⟨d, f, st, hp, hd, hsepf, hfn, hst, hpre, ⟨d, hp.symm⟩, hrel, ?_⟩
    intro e hfe hedot
    rcases hrel with ⟨hfdot, -⟩ | ⟨e1, he1, hfe1⟩
    · exact absurd rfl (hfdot '.' (by rw [hfe]; exact List.mem_cons_self _ _))
    · cases st with
      | nil => rfl
      | cons x st1 =>
        rw [hfe] at hfe1
        simp only [List.cons_append, List.cons.injEq] at hfe1
        have hmem : '.' ∈ e := by
          rw [hfe1.2]
          exact List.mem_append_right _ (List.mem_cons_self _ _)
        exact absurd rfl (hedot '.' hmem)
  rcases file.split_last file.is_sep p with hno | ⟨a, c, b, hp, hc, hb⟩
  · exact fin [] p rfl (Or.inl rfl) hno
  · exact fin (a ++ [c]) b (by rw [hp]; simp) (Or.inr ⟨a, c, rfl, hc⟩) hb

/-- Witness of C15: the paths `./some.dir/archive.tar.gz`, `.bashrc` and `a.b/c`. -/
theorem stem_filename_relation_witness :
    file.get_filename "./some.dir/archive.tar.gz".toList = some "archive.tar.gz".toList ∧
    file.get_stem "./some.dir/archive.tar.gz".toList = some "archive.tar".toList ∧
    file.get_stem ".bashrc".toList = some [] ∧
    file.get_stem "a.b/c".toList = some "c".toList ∧
    file.no_nul "a.b/c".toList ∧
    ∃ d f st, "a.b/c".toList = d ++ f ∧ file.is_dir_prefix d ∧
      (∀ c ∈ f, c ≠ '/' ∧ c ≠ '\\') ∧
      file.get_filename "a.b/c".toList = some f ∧ file.get_stem "a.b/c".toList = some st ∧
      st <+: f ∧ f <:+ "a.b/c".toList ∧
      (((∀ c ∈ f, c ≠ '.') ∧ st = f) ∨ ∃ e, (∀ c ∈ e, c ≠ '.') ∧ f = st ++ '.' :: e) ∧
      (∀ e, f = '.' :: e → (∀ c ∈ e, c ≠ '.') → st = []) :=
  ⟨by decide, by decide, by decide, by decide, by decide,
    stem_filename_relation "a.b/c".toList (by decide)⟩

end os
